import Mathlib

/-!
Verification development for the NIOKR GENCAD export pipeline
(`src/PCB/export/gencad_parser.py` and `src/PCB/export/swap_diode_pins.py`).

The Python source is shallowly embedded below: floating-point coordinates are
modelled as real numbers, Python dictionaries as insertion-ordered association
lists with unique keys, and the raising of a Python exception as an
`Except String` error value.
-/

/-! ## Python character classes and string primitives

The source matches lines with `re` patterns over ASCII text.  We embed the
character classes used by those patterns (`\s`, `\w`, `\d`, `[-\d.]`) for
ASCII input, and Python's code-point string comparison and `str.startswith`.
-/

/-- Python regex class `\s` on ASCII text: space, tab, newline, carriage
return, vertical tab, form feed. -/
def isPyWs (c : Char) : Bool :=
  c = ' ' ∨ c = '\t' ∨ c = '\n' ∨ c = '\r' ∨ c = '\x0b' ∨ c = '\x0c'

/-- Python regex class `\w` on ASCII text: alphanumeric or underscore. -/
def isPyWord (c : Char) : Bool := c.isAlphanum || c = '_'

/-- Python regex class `\d` on ASCII text: a decimal digit. -/
def isPyDigit (c : Char) : Bool := '0' ≤ c ∧ c ≤ '9'

/-- The character class `[-\d\.]` used for numeric fields in the source. -/
def isNumCls (c : Char) : Bool := c = '-' ∨ isPyDigit c ∨ c = '.'

/-- Lexicographic comparison of character lists by code point, the order
Python uses to compare strings. -/
def charListLt : List Char → List Char → Bool
  | [], [] => false
  | [], _ :: _ => true
  | _ :: _, [] => false
  | a :: as, b :: bs => if a < b then true else if b < a then false else charListLt as bs

/-- Python `a < b` on strings: code-point lexicographic comparison. -/
def pyStrLt (a b : String) : Bool := charListLt a.toList b.toList

/-- Python `s.startswith(pre)`. -/
def pyStartsWith (s pre : String) : Bool := pre.toList.isPrefixOf s.toList

/-- Python `int` applied to a run of decimal digits. -/
def digitsToNat (l : List Char) : Nat :=
  l.foldl (fun n c => n * 10 + (c.toNat - '0'.toNat)) 0

/-! ## The PIN-line pattern of `_parse_shapes`

The source matches pin lines with
`PIN\s+"([^"]+)"\s+(\w+)\s+([-\d\.]+)\s+([-\d\.]+)(?:\s+(\w+))?(?:\s+(\d+))?(?:\s+(\d+))?`.
Every repetition in this pattern is over a character class that is disjoint
from whatever the pattern requires next, so the greedy match never backtracks:
the whole pattern is a sequence of maximal-munch steps, embedded below.
`re.match` anchors at the start of the line only, so trailing unmatched text
is allowed.
-/

/-- One maximal-munch step for a `+`-repeated character class: the (nonempty)
longest prefix of characters satisfying `p`, and the rest. -/
def munch1 (p : Char → Bool) (l : List Char) : Option (List Char × List Char) :=
  match l.takeWhile p with
  | [] => none
  | tk => some (tk, l.dropWhile p)

/-- Match a literal character sequence at the front of the input. -/
def litTok (cs : List Char) (l : List Char) : Option (List Char) :=
  if l.take cs.length = cs then some (l.drop cs.length) else none

/-- One optional group `(?:\s+(<class>+))?`: greedy, and when the inner match
fails the whole group consumes nothing. -/
def optField (p : Char → Bool) (l : List Char) : Option (List Char) × List Char :=
  match munch1 isPyWs l with
  | none => (none, l)
  | some (_, rest) =>
    match munch1 p rest with
    | none => (none, l)
    | some (tok, rest2) => (some tok, rest2)

/-- The capture groups of the PIN-line pattern: name, pad type, x text,
y text, and the three optional trailing groups. -/
structure PinGroups where
  name : String
  pad : String
  x : String
  y : String
  g5 : Option String
  g6 : Option String
  g7 : Option String
deriving DecidableEq, Repr

/-- Run the PIN-line pattern of `_parse_shapes` against a (stripped) line. -/
def pinLineGroups (line : String) : Option PinGroups := do
  let r0 ← litTok "PIN".toList line.toList
  let (_, r1) ← munch1 isPyWs r0
  let r2 ← litTok ['"'] r1
  let (nm, r3) ← munch1 (fun c => c ≠ '"') r2
  let r4 ← litTok ['"'] r3
  let (_, r5) ← munch1 isPyWs r4
  let (pad, r6) ← munch1 isPyWord r5
  let (_, r7) ← munch1 isPyWs r6
  let (xs, r8) ← munch1 isNumCls r7
  let (_, r9) ← munch1 isPyWs r8
  let (ys, r10) ← munch1 isNumCls r9
  let (g5, r11) := optField isPyWord r10
  let (g6, r12) := optField isPyDigit r11
  let (g7, _) := optField isPyDigit r12
  pure { name := nm.asString, pad := pad.asString, x := xs.asString, y := ys.asString,
         g5 := g5.map List.asString, g6 := g6.map List.asString, g7 := g7.map List.asString }

/-- The pin record appended by `_parse_shapes` (lines 202-216 of the source):
`layer = groups[4] if ... else "TOP"` and `rotation = int(groups[5]) if ... else 0`.
The numeric texts of the x and y groups are kept verbatim here (the source
converts them with `float`, which is irrelevant to the trailing-field
defaulting this record is used to study). -/
structure ParsedPin where
  name : String
  pad : String
  x : String
  y : String
  layer : String
  rotation : Int
deriving DecidableEq, Repr

/-- `_parse_shapes`' handling of one matching PIN line: group 5 is the layer
(defaulting to `"TOP"` when the group did not participate), group 6 the
rotation (`int` of the digits, defaulting to `0`), group 7 is ignored. -/
def parsePinRecord (line : String) : Option ParsedPin :=
  (pinLineGroups line).map (fun g =>
    { name := g.name, pad := g.pad, x := g.x, y := g.y,
      layer := g.g5.getD "TOP",
      rotation := match g.g6 with
        | some d => (digitsToNat d.toList : Int)
        | none => 0 })


/-! ## Data model

`GencadParser` keeps `shapes` (dict name -> pin list), `components`
(dict name -> attribute dict), and `signals` (dict name -> endpoint list).
Python dicts preserve insertion order and have unique keys; they are embedded
as association lists, with key uniqueness assumed as a hypothesis where a
theorem needs it. Attributes that `_parse_components` only sets when the
corresponding directive line occurs are `Option`-valued; reading such an
attribute with `comp_data['k']` raises `KeyError` when it is absent, while
`comp_data.get('k', d)` falls back to the default `d`.
-/

/-- One pin of a shape as stored by `_parse_shapes`: relative offset, pad
type, layer (default `"TOP"`) and local rotation (default `0`). -/
structure ShapePin where
  name : String
  pad : String
  x : ℝ
  y : ℝ
  layer : String
  rotation : Int

/-- The shape table: dict from shape name to its pin list. -/
abbrev Shapes := List (String × List ShapePin)

/-- One component's attribute dict as built by `_parse_components`.  The
three flags always exist (initialised `False` on the COMPONENT line); the
other attributes exist only if their directive line occurred. -/
structure ComponentData where
  shape : Option String
  x : Option ℝ
  y : Option ℝ
  rotation : Option Int
  mirror_x : Bool
  mirror_y : Bool
  flip : Bool
  layer : Option String

/-- The component table: dict from component name to its attributes. -/
abbrev Components := List (String × ComponentData)

/-- The signal table: dict from net name to its `(component, pin)` endpoint
list. -/
abbrev Signals := List (String × List (String × String))

/-- A resolved pin as appended to `self.pins` by `_calculate_pin_positions`. -/
structure Pin where
  component : String
  pin_name : String
  x : ℝ
  y : ℝ
  layer : String
  signal : String

/-- Python `shape_name in self.shapes` / `self.shapes[shape_name]`:  dict
lookup, embedded as first-match search (keys are unique). -/
def lookupShape (shapes : Shapes) (name : String) : Option (List ShapePin) :=
  (shapes.find? (fun s => s.1 = name)).map (fun s => s.2)

/-- `_rotate_point`: rotate a point about the origin by an angle in degrees,
counter-clockwise mathematical convention. -/
noncomputable def rotatePoint (x y : ℝ) (angleDeg : Int) : ℝ × ℝ :=
  let angleRad := (angleDeg : ℝ) * Real.pi / 180
  (x * Real.cos angleRad - y * Real.sin angleRad,
   x * Real.sin angleRad + y * Real.cos angleRad)

/-- `_find_signal`: scan every net's endpoint list, in table order, for an
exact `(component, pin)` pair; the first net containing it wins, otherwise
the sentinel `"unconnected"`. -/
def findSignal (signals : Signals) (component pin : String) : String :=
  match signals.find? (fun s => (s.2).contains (component, pin)) with
  | some s => s.1
  | none => "unconnected"

/-- The layer computation inlined in `_calculate_pin_positions` (lines
372-375): `pin_layer = 'BOTTOM' if pin_layer == 'TOP' else 'TOP'` under
`flip`, otherwise the shape pin's own layer. -/
def resolvePinLayer (flip : Bool) (layer : String) : String :=
  if flip then (if layer = "TOP" then "BOTTOM" else "TOP") else layer

/-- The per-pin body of the loop in `_calculate_pin_positions`: mirror, then
rotate, then translate, then resolve layer and signal. -/
noncomputable def computePin (signals : Signals) (compName : String) (c : ComponentData)
    (cx cy : ℝ) (p : ShapePin) : Pin :=
  let px := if c.mirror_x then -p.x else p.x
  let py := if c.mirror_y then -p.y else p.y
  let r := rotatePoint px py (c.rotation.getD 0)
  { component := compName
    pin_name := p.name
    x := cx + r.1
    y := cy + r.2
    layer := resolvePinLayer c.flip p.layer
    signal := findSignal signals compName p.name }

/-- Python's stable `list.sort(key=lambda p: p['pin_name'])`, which both
source files only ever invoke on a list already known to have exactly two
elements; on such a list the stable sort reduces to one comparison. -/
def sortPins2 (l : List Pin) : List Pin :=
  match l with
  | [a, b] => if pyStrLt b.pin_name a.pin_name then [b, a] else [a, b]
  | _ => l

/-- The coordinate exchange of the diode special case (source lines
397-402): the first pin receives the second's `(x, y)` and vice versa;
no other field is touched. -/
def swapCoords : List Pin → List Pin
  | [a, b] => [{ a with x := b.x, y := b.y }, { b with x := a.x, y := a.y }]
  | l => l

/-- The per-component part of `_calculate_pin_positions`: skip (with a
diagnostic) when the shape reference is absent or unresolvable, raise
`KeyError` when the placement is absent, otherwise compute every pin and
apply the diode swap to `L-D`-prefixed components with exactly two pins. -/
noncomputable def calcComponentPins (shapes : Shapes) (signals : Signals)
    (compName : String) (c : ComponentData) : Except String (List Pin) :=
  match c.shape with
  | none => .ok []
  | some shapeName =>
    match lookupShape shapes shapeName with
    | none => .ok []
    | some shapePins =>
      match c.x, c.y with
      | some cx, some cy =>
        let pins := shapePins.map (computePin signals compName c cx cy)
        if pyStartsWith compName "L-D" then
          if pins.length = 2 then .ok (swapCoords (sortPins2 pins)) else .ok pins
        else .ok pins
      | _, _ => .error "KeyError"

/-- `_calculate_pin_positions` over the whole component table: the global
pin list is the concatenation of the per-component lists, in table order; a
raised exception aborts the whole resolution. -/
noncomputable def calculatePinPositions (shapes : Shapes) (signals : Signals) :
    Components → Except String (List Pin)
  | [] => .ok []
  | (n, c) :: rest => do
    let ps ← calcComponentPins shapes signals n c
    let qs ← calculatePinPositions shapes signals rest
    .ok (ps ++ qs)

/-! ## Exporters

Each exporter is modelled as a pure function from the resolved state to the
list of logical CSV rows it writes (header and file I/O elided).
-/

/-- One row of `connections.csv`. -/
structure ConnRow where
  signal : String
  component1 : String
  pin1 : String
  x1 : ℝ
  y1 : ℝ
  layer1 : String
  component2 : String
  pin2 : String
  x2 : ℝ
  y2 : ℝ
  layer2 : String

/-- All index pairs `i < j` of a list, in the nested-loop order of
`export_connections_to_csv`. -/
def pairsList {α : Type} : List α → List (α × α)
  | [] => []
  | x :: xs => (xs.map (fun y => (x, y))) ++ pairsList xs

/-- First-occurrence deduplication: the key order in which a `defaultdict`
populated by one pass over a list yields its groups. -/
def dedupFirst : List String → List String
  | [] => []
  | s :: rest => s :: dedupFirst (rest.filter (fun t => t ≠ s))
termination_by l => l.length
decreasing_by
  simp only [List.length_cons]
  exact Nat.lt_succ_of_le (List.length_filter_le _ _)

/-- The row `export_connections_to_csv` appends for one pin pair of a net. -/
def connRowOf (s : String) (pq : Pin × Pin) : ConnRow :=
  { signal := s,
    component1 := pq.1.component, pin1 := pq.1.pin_name,
    x1 := pq.1.x, y1 := pq.1.y, layer1 := pq.1.layer,
    component2 := pq.2.component, pin2 := pq.2.pin_name,
    x2 := pq.2.x, y2 := pq.2.y, layer2 := pq.2.layer }

/-- `export_connections_to_csv`: group the resolved pins by signal, dropping
`"unconnected"` pins, then emit one row per ordered index pair `i < j`
within each group. -/
def exportConnections (pins : List Pin) : List ConnRow :=
  let sigs := dedupFirst ((pins.filter (fun p => p.signal ≠ "unconnected")).map (fun p => p.signal))
  sigs.flatMap (fun s =>
    (pairsList (pins.filter (fun p => p.signal = s))).map (connRowOf s))

/-- One row of `netlist.csv`. -/
structure NetRow where
  signal : String
  pin_count : Nat
  components : String
deriving DecidableEq, Repr

/-- `export_netlist_to_csv`: one row per net; an endpoint contributes only
when a resolved pin with exactly that `(component, pin_name)` exists (the
source searches `self.pins` with a first-match loop and drops the endpoint
otherwise); the row joins the contributing endpoints' `component:pin` texts
with `", "` and counts them. -/
def exportNetlist (signals : Signals) (pins : List Pin) : List NetRow :=
  signals.map (fun s =>
    let sp := s.2.filter (fun e =>
      (pins.find? (fun p => p.component = e.1 ∧ p.pin_name = e.2)).isSome)
    { signal := s.1,
      pin_count := sp.length,
      components := String.intercalate ", " (sp.map (fun e => e.1 ++ ":" ++ e.2)) })

/-- One row of the Houdini combined graph table. -/
structure HRow where
  id : Nat
  x : ℝ
  y : ℝ
  z : ℝ
  component : String
  pin_name : String
  layer : String
  signal : String
  connected_to : String
  connected_ids : String

/-- The row the first pass of `export_houdini_csv` makes from the pin at
index `i`: the 0-based id, the layer-derived z, and the connection fields
initialised.  The fields start as empty Python lists, and an untouched
empty list serialises to the text `"[]"` in the written CSV (directly by
`str` for `connected_to`, via the bracket-formatting branch for
`connected_ids`). -/
noncomputable def houdiniRowOf (i : Nat) (p : Pin) : HRow :=
  { id := i,
    x := p.x, y := p.y,
    z := if p.layer = "TOP" then (0 : ℝ) else (-0.1 : ℝ),
    component := p.component, pin_name := p.pin_name,
    layer := p.layer, signal := p.signal,
    connected_to := "[]", connected_ids := "[]" }

/-- The first pass of `export_houdini_csv` over the whole pin list. -/
noncomputable def houdiniBase (pins : List Pin) : List HRow :=
  pins.enum.map (fun ip => houdiniRowOf ip.1 ip.2)

/-- `pin_lookup[(component, pin_name)]`: a dict built by one pass over the
pins, so the last pin with a given key wins. -/
def lookupRow (rows : List HRow) (key : String × String) : Option HRow :=
  (rows.filter (fun r => r.component = key.1 ∧ r.pin_name = key.2)).getLast?

/-- The `signal_pins` list `export_houdini_csv` builds for one net: the
endpoints, in list order, that resolve through `pin_lookup`. -/
def signalRows (rows : List HRow) (conns : List (String × String)) : List HRow :=
  conns.filterMap (lookupRow rows)

/-- The connection fields a row ends up with after the signal loop of
`export_houdini_csv`.  The loop writes the fields of a pin object once per
occurrence of that pin in each net's `signal_pins` (nets named
`"unconnected"` are skipped), so the surviving value comes from the last
such occurrence in the last such net; rows never written keep their
initial `"[]"` texts. -/
def rowConnFields (rows : List HRow) (signals : Signals) (r : HRow) : String × String :=
  let sigs := signals.filter (fun s => s.1 ≠ "unconnected")
  match sigs.reverse.find? (fun s => (signalRows rows s.2).any (fun q => q.id = r.id)) with
  | none => (r.connected_to, r.connected_ids)
  | some s =>
    let sp := signalRows rows s.2
    match ((sp.enum.filter (fun jq => jq.2.id = r.id)).getLast?) with
    | none => (r.connected_to, r.connected_ids)
    | some iq =>
      let peers := (sp.enum.filter (fun jq => jq.1 ≠ iq.1)).map (fun jq => jq.2)
      (String.intercalate "|" (peers.map (fun q => q.component ++ ":" ++ q.pin_name)),
       "[" ++ String.intercalate "," (peers.map (fun q => toString q.id)) ++ "]")

/-- `export_houdini_csv`: the combined graph table. -/
noncomputable def exportHoudini (pins : List Pin) (signals : Signals) : List HRow :=
  let base := houdiniBase pins
  base.map (fun r =>
    { r with connected_to := (rowConnFields base signals r).1,
             connected_ids := (rowConnFields base signals r).2 })

/-- `pins.sort(key=lambda p: p['pin_name'])` of `swap_diode_pins` on a
two-element group (positions paired with rows): the stable sort reduces to
one comparison. -/
def sortGrp2 (a b : Nat × HRow) : (Nat × HRow) × (Nat × HRow) :=
  if pyStrLt b.2.pin_name a.2.pin_name then (b, a) else (a, b)

/-- The in-place coordinate exchange of `swap_diode_pins` as seen from one
row of the table: the row at the first sorted position receives the second
sorted row's `(x, y)` and vice versa. -/
def swapPick (i : Nat) (r : HRow) (s : (Nat × HRow) × (Nat × HRow)) : HRow :=
  if i = s.1.1 then { r with x := s.2.2.x, y := s.2.2.y }
  else { r with x := s.1.2.x, y := s.1.2.y }

/-- The row `swap_diode_pins` writes out at one position of the table: the
row's component group (rows are identified by their position, mirroring
Python's object identity); if the component name starts with `"L-D"` and
the group has exactly two rows, the two sorted rows exchange their
`(x, y)` pairs; every other row, and every other field, is untouched. -/
def swapEntry (rows : List HRow) (ir : Nat × HRow) : HRow :=
  if pyStartsWith ir.2.component "L-D" ∧
      (rows.enum.filter (fun jq => jq.2.component = ir.2.component)).length = 2 then
    match rows.enum.filter (fun jq => jq.2.component = ir.2.component) with
    | [a, b] => swapPick ir.1 ir.2 (sortGrp2 a b)
    | _ => ir.2
  else ir.2

/-- `swap_diode_pins` (from `swap_diode_pins.py`) over the whole table. -/
def swapDiodeRows (rows : List HRow) : List HRow :=
  rows.enum.map (swapEntry rows)

/-- The skip condition of `_calculate_pin_positions`: a component is
processed (rather than skipped with a diagnostic) exactly when it has a
shape reference that resolves in the shape table. -/
def resolvableShape (shapes : Shapes) (c : ComponentData) : Bool :=
  match c.shape with
  | none => false
  | some shapeName => (lookupShape shapes shapeName).isSome

/-! ## General helper lemmas -/

/-- If a key function is injective on a list (its image is `Nodup`), members
with equal keys are equal. -/
theorem eq_of_mem_of_nodup_map {α γ : Type} {K : α → γ} {l : List α}
    (h : (l.map K).Nodup) {x y : α} (hx : x ∈ l) (hy : y ∈ l) (hK : K x = K y) : x = y := by
  obtain ⟨i, hi, hix⟩ := List.mem_iff_getElem.mp hx
  obtain ⟨j, hj, hjy⟩ := List.mem_iff_getElem.mp hy
  by_cases hij : i = j
  · subst hij; rw [← hix, hjy]
  · exfalso
    have hi' : i < (l.map K).length := by simpa using hi
    have hj' : j < (l.map K).length := by simpa using hj
    have hKij : (l.map K).get ⟨i, hi'⟩ ≠ (l.map K).get ⟨j, hj'⟩ := by
      intro hEq
      rw [List.get_eq_getElem, List.get_eq_getElem] at hEq
      exact hij ((h.getElem_inj_iff).mp hEq)
    apply hKij
    rw [List.get_eq_getElem, List.get_eq_getElem]
    simp only [List.getElem_map]
    rw [hix, hjy, hK]

/-- Filtering commutes with a common projection of two mapped lists. -/
theorem filter_map_transport {α β γ : Type} {F : α → γ} {G : β → γ}
    {l : List α} {m : List β} (h : l.map F = m.map G) (q : γ → Bool) :
    (l.filter (fun a => q (F a))).map F = (m.filter (fun b => q (G b))).map G := by
  induction l generalizing m with
  | nil =>
    cases m with
    | nil => rfl
    | cons b m' => simp at h
  | cons a l' ih =>
    cases m with
    | nil => simp at h
    | cons b m' =>
      simp only [List.map_cons, List.cons.injEq] at h
      obtain ⟨h1, h2⟩ := h
      by_cases hq : q (F a) = true
      · have hq' : q (G b) = true := by rw [← h1]; exact hq
        simp only [List.filter_cons, hq, hq', if_pos, List.map_cons, h1, ih h2]
      · have hq' : ¬ q (G b) = true := by rw [← h1]; exact hq
        simp only [List.filter_cons, if_neg hq, if_neg hq', ih h2]

/-- `find?` returns the unique element satisfying the predicate. -/
theorem find?_eq_of_unique {α : Type} {p : α → Bool} {l : List α} {x : α}
    (hx : x ∈ l) (hpx : p x = true) (huniq : ∀ y ∈ l, p y = true → y = x) :
    l.find? p = some x := by
  induction l with
  | nil => cases hx
  | cons a l' ih =>
    by_cases hpa : p a = true
    · have : a = x := huniq a (List.mem_cons_self a l') hpa
      subst this
      simp [List.find?_cons, hpa]
    · have hax : x ≠ a := by
        intro hEq; subst hEq; exact hpa hpx
      have hx' : x ∈ l' := by
        rcases List.mem_cons.mp hx with h | h
        · exact absurd h hax
        · exact h
      have := ih hx' (fun y hy hpy => huniq y (List.mem_cons_of_mem a hy) hpy)
      simp only [List.find?_cons]
      rw [Bool.eq_false_iff.mpr hpa]
      exact this

/-- With a `Nodup` key image, filtering a list for a member's key yields
exactly that member. -/
theorem filter_key_eq_single {α γ : Type} [DecidableEq γ] {K : α → γ} {l : List α}
    (h : (l.map K).Nodup) {x : α} (hx : x ∈ l) :
    l.filter (fun y => K y = K x) = [x] := by
  induction l with
  | nil => cases hx
  | cons a l' ih =>
    simp only [List.map_cons, List.nodup_cons] at h
    obtain ⟨hKa, hnd'⟩ := h
    rcases List.mem_cons.mp hx with hxa | hxl
    · subst hxa
      have hrest : l'.filter (fun y => K y = K x) = [] := by
        rw [List.filter_eq_nil_iff]
        intro b hb hKb
        apply hKa
        rw [decide_eq_true_eq] at hKb
        rw [← hKb]
        exact List.mem_map_of_mem K hb
      simp [List.filter_cons, hrest]
    · have hKax : ¬ (K a = K x) := by
        intro hEq
        apply hKa
        rw [hEq]
        exact List.mem_map_of_mem K hxl
      simp only [List.filter_cons, decide_eq_true_eq]
      rw [if_neg hKax]
      exact ih hnd' hxl

/-- Enumerating then filtering on a predicate of the element recovers a plain
filter after projecting the element back out. -/
theorem enumFrom_filter_map_snd {α : Type} (g : α → Bool) :
    ∀ (k : Nat) (l : List α),
      ((l.enumFrom k).filter (fun jq => g jq.2)).map Prod.snd = l.filter g := by
  intro k l
  induction l generalizing k with
  | nil => rfl
  | cons a l' ih =>
    simp only [List.enumFrom_cons, List.filter_cons]
    by_cases hg : g a = true
    · simp only [hg, if_pos, List.map_cons, List.filter_cons, ih]
    · simp only [Bool.not_eq_true] at hg
      simp only [hg, Bool.false_eq_true, if_neg, List.filter_cons, ih, not_false_iff]

/-- A filter on an element predicate that holds nowhere in the enumeration. -/
theorem enumFrom_filter_none {α : Type} {g : α → Bool} :
    ∀ (l : List α) (k : Nat), (∀ x ∈ l, g x = false) →
      (l.enumFrom k).filter (fun jq => g jq.2) = [] := by
  intro l
  induction l with
  | nil => intro k _; rfl
  | cons a l' ih =>
    intro k hall
    simp only [List.enumFrom_cons, List.filter_cons, hall a (List.mem_cons_self a l'),
      Bool.false_eq_true, if_neg, not_false_iff]
    exact ih (k + 1) (fun x hx => hall x (List.mem_cons_of_mem a hx))

/-- A filter on an element predicate satisfied exactly once. -/
theorem enumFrom_filter_single {α : Type} {g : α → Bool} :
    ∀ (u : List α) (b : α) (v : List α) (k : Nat),
      (∀ x ∈ u, g x = false) → g b = true → (∀ x ∈ v, g x = false) →
      ((u ++ b :: v).enumFrom k).filter (fun jq => g jq.2) = [(k + u.length, b)] := by
  intro u
  induction u with
  | nil =>
    intro b v k _ hb hv
    simp only [List.nil_append, List.enumFrom_cons, List.filter_cons, hb, if_pos]
    rw [enumFrom_filter_none v (k + 1) hv]
    simp
  | cons a u' ih =>
    intro b v k hu hb hv
    have ha : g a = false := hu a (List.mem_cons_self a u')
    simp only [List.cons_append, List.enumFrom_cons, List.filter_cons, ha,
      Bool.false_eq_true, if_neg, not_false_iff]
    rw [ih b v (k + 1) (fun x hx => hu x (List.mem_cons_of_mem a hx)) hb hv]
    have : k + 1 + u'.length = k + (a :: u').length := by
      simp only [List.length_cons]
      omega
    rw [this]

/-- Indices below the enumeration offset never occur, so filtering them out
is the identity. -/
theorem enumFrom_filter_ne_low {α : Type} :
    ∀ (l : List α) (m j : Nat), j < m →
      (l.enumFrom m).filter (fun jq => jq.1 ≠ j) = l.enumFrom m := by
  intro l
  induction l with
  | nil => intro m j _; rfl
  | cons a l' ih =>
    intro m j hj
    have hne : (m ≠ j) := by omega
    simp only [List.enumFrom_cons, List.filter_cons, decide_eq_true_eq]
    rw [if_pos hne]
    rw [ih (m + 1) j (by omega)]

/-- Removing a single enumerated index from the middle of a list. -/
theorem enumFrom_filter_ne_idx {α : Type} :
    ∀ (u : List α) (b : α) (v : List α) (k : Nat),
      ((u ++ b :: v).enumFrom k).filter (fun jq => jq.1 ≠ k + u.length) =
        u.enumFrom k ++ v.enumFrom (k + u.length + 1) := by
  intro u
  induction u with
  | nil =>
    intro b v k
    simp only [List.nil_append, List.enumFrom_cons, List.filter_cons, List.length_nil,
      Nat.add_zero, decide_eq_true_eq]
    rw [if_neg (by omega)]
    rw [enumFrom_filter_ne_low v (k + 1) k (by omega)]
    rfl
  | cons a u' ih =>
    intro b v k
    simp only [List.cons_append, List.enumFrom_cons, List.filter_cons, List.length_cons,
      decide_eq_true_eq]
    rw [if_pos (by omega)]
    have heq : k + (u'.length + 1) = k + 1 + u'.length := by omega
    simp only [heq]
    rw [ih b v (k + 1)]

/-- The nested loop of `export_connections_to_csv` emits `n * (n-1) / 2`
pairs; stated doubled to avoid truncated division. -/
theorem pairsList_length_two_mul {α : Type} :
    ∀ (l : List α), 2 * (pairsList l).length = l.length * (l.length - 1) := by
  intro l
  induction l with
  | nil => rfl
  | cons x xs ih =>
    simp only [pairsList, List.length_append, List.length_map, List.length_cons]
    cases xs with
    | nil => simp [pairsList]
    | cons y ys =>
      simp only [List.length_cons] at ih ⊢
      have h2 : ys.length + 1 + 1 - 1 = ys.length + 1 := by omega
      rw [h2]
      have h3 : (ys.length + 1 + 1) * (ys.length + 1) =
          (ys.length + 1) * (ys.length + 1 - 1) + 2 * (ys.length + 1) := by
        have h4 : ys.length + 1 - 1 = ys.length := by omega
        rw [h4]; ring
      rw [h3]
      omega

/-- Membership is preserved by first-occurrence deduplication. -/
theorem mem_dedupFirst : ∀ (l : List String) (a : String), a ∈ dedupFirst l ↔ a ∈ l := by
  intro l
  induction l using dedupFirst.induct with
  | case1 =>
    intro a
    simp [dedupFirst]
  | case2 s rest ih =>
    intro a
    rw [dedupFirst]
    by_cases has : a = s
    · subst has
      simp
    · simp only [List.mem_cons, has, false_or]
      rw [ih a]
      simp only [List.mem_filter, decide_eq_true_eq]
      constructor
      · intro h; exact h.1
      · intro h; exact ⟨h, has⟩

/-- First-occurrence deduplication yields a list without duplicates. -/
theorem nodup_dedupFirst : ∀ (l : List String), (dedupFirst l).Nodup := by
  intro l
  induction l using dedupFirst.induct with
  | case1 => simp [dedupFirst]
  | case2 s rest ih =>
    rw [dedupFirst]
    rw [List.nodup_cons]
    refine ⟨?_, ih⟩
    intro hmem
    rw [mem_dedupFirst] at hmem
    simp only [List.mem_filter, decide_eq_true_eq] at hmem
    exact hmem.2 rfl

/-- Python's string comparison is asymmetric. -/
theorem charListLt_asymm : ∀ {a b : List Char}, charListLt a b = true → charListLt b a = false := by
  intro a
  induction a with
  | nil =>
    intro b h
    cases b with
    | nil => exact absurd h (by simp [charListLt])
    | cons c cs => simp [charListLt]
  | cons x xs ih =>
    intro b h
    cases b with
    | nil => exact absurd h (by simp [charListLt])
    | cons y ys =>
      simp only [charListLt] at h ⊢
      by_cases hxy : x < y
      · rw [if_neg (by exact lt_asymm hxy), if_pos hxy]
      · rw [if_neg hxy] at h
        by_cases hyx : y < x
        · rw [if_pos hyx] at h
          exact absurd h (by simp)
        · rw [if_neg hyx] at h
          rw [if_neg hyx, if_neg hxy]
          exact ih h

/-- The two-element stable sort returns the same two pins, ordered by pin
name. -/
theorem sortPins2_pair (p q : Pin) :
    ∃ a b, sortPins2 [p, q] = [a, b] ∧ pyStrLt b.pin_name a.pin_name = false ∧
      ([a, b] = [p, q] ∨ [a, b] = [q, p]) := by
  by_cases h : pyStrLt q.pin_name p.pin_name = true
  · refine ⟨q, p, ?_, ?_, Or.inr rfl⟩
    · simp [sortPins2, h]
    · exact charListLt_asymm h
  · refine ⟨p, q, ?_, ?_, Or.inl rfl⟩
    · simp [sortPins2, h]
    · simpa using h

/-- Every pin produced by the diode sort-and-swap differs from some directly
computed pin only in its coordinates. -/
theorem mem_swap_sort {l : List Pin} {p : Pin} (hp : p ∈ swapCoords (sortPins2 l)) :
    ∃ q ∈ l, p.component = q.component ∧ p.pin_name = q.pin_name ∧
      p.layer = q.layer ∧ p.signal = q.signal := by
  match l with
  | [a, b] =>
    rcases sortPins2_pair a b with ⟨u, v, heq, _, hor⟩
    rw [heq] at hp
    simp only [swapCoords, List.mem_cons, List.not_mem_nil, or_false] at hp
    have humem : u ∈ [a, b] ∧ v ∈ [a, b] := by
      rcases hor with h | h <;>
        · simp only [List.cons.injEq, and_true] at h
          obtain ⟨h1, h2⟩ := h
          subst h1; subst h2
          exact ⟨by simp, by simp⟩
    rcases hp with hp | hp
    · subst hp
      exact ⟨u, humem.1, rfl, rfl, rfl, rfl⟩
    · subst hp
      exact ⟨v, humem.2, rfl, rfl, rfl, rfl⟩
  | [] =>
    have hl : swapCoords (sortPins2 ([] : List Pin)) = [] := rfl
    rw [hl] at hp
    cases hp
  | [a] =>
    have hl : swapCoords (sortPins2 [a]) = [a] := rfl
    rw [hl] at hp
    simp only [List.mem_cons, List.not_mem_nil, or_false] at hp
    exact ⟨a, by simp, by rw [hp], by rw [hp], by rw [hp], by rw [hp]⟩
  | a :: b :: c :: rest =>
    have hl : swapCoords (sortPins2 (a :: b :: c :: rest)) = a :: b :: c :: rest := rfl
    rw [hl] at hp
    exact ⟨p, hp, rfl, rfl, rfl, rfl⟩


/-! ## Structure lemmas about the resolver -/

/-- When the shape resolves and the placement is present, the per-component
resolution succeeds, and its result is determined by the diode gate. -/
theorem calcComponentPins_ok {shapes : Shapes} {signals : Signals}
    {compName : String} {c : ComponentData} {shapeName : String}
    {shapePins : List ShapePin} {cx cy : ℝ}
    (hshape : c.shape = some shapeName)
    (hlook : lookupShape shapes shapeName = some shapePins)
    (hx : c.x = some cx) (hy : c.y = some cy) :
    calcComponentPins shapes signals compName c =
      .ok (if pyStartsWith compName "L-D" = true ∧
              (shapePins.map (computePin signals compName c cx cy)).length = 2
           then swapCoords (sortPins2 (shapePins.map (computePin signals compName c cx cy)))
           else shapePins.map (computePin signals compName c cx cy)) := by
  simp only [calcComponentPins, hshape, hlook, hx, hy]
  by_cases hd : pyStartsWith compName "L-D" = true
  · by_cases hl2 : (shapePins.map (computePin signals compName c cx cy)).length = 2
    · rw [if_pos hd, if_pos hl2, if_pos ⟨hd, hl2⟩]
    · rw [if_pos hd, if_neg hl2, if_neg (fun h => hl2 h.2)]
  · rw [if_neg hd, if_neg (fun h => hd h.1)]

/-- A component whose shape reference is absent or does not resolve is
skipped: it contributes the empty pin list and no exception. -/
theorem calcComponentPins_skip {shapes : Shapes} {signals : Signals}
    {compName : String} {c : ComponentData}
    (h : ∀ shapeName, c.shape = some shapeName → lookupShape shapes shapeName = none) :
    calcComponentPins shapes signals compName c = .ok [] := by
  cases hs : c.shape with
  | none => simp only [calcComponentPins, hs]
  | some shapeName => simp only [calcComponentPins, hs, h shapeName hs]

/-- A resolvable shape with a missing placement raises `KeyError`. -/
theorem calcComponentPins_keyError {shapes : Shapes} {signals : Signals}
    {compName : String} {c : ComponentData} {shapeName : String}
    {shapePins : List ShapePin}
    (hshape : c.shape = some shapeName)
    (hlook : lookupShape shapes shapeName = some shapePins)
    (hxy : c.x = none ∨ c.y = none) :
    calcComponentPins shapes signals compName c = .error "KeyError" := by
  simp only [calcComponentPins, hshape, hlook]
  rcases hxy with hx | hy
  · rw [hx]
  · rw [hy]
    cases c.x <;> rfl

/-- Every pin produced for a component carries that component's name. -/
theorem calcComponentPins_component {shapes : Shapes} {signals : Signals}
    {compName : String} {c : ComponentData} {l : List Pin}
    (h : calcComponentPins shapes signals compName c = .ok l) :
    ∀ p ∈ l, p.component = compName := by
  intro p hp
  cases hs : c.shape with
  | none =>
    rw [calcComponentPins_skip (fun sn hsn => by rw [hs] at hsn; cases hsn)] at h
    injection h with h
    subst h
    cases hp
  | some shapeName =>
    cases hl : lookupShape shapes shapeName with
    | none =>
      rw [calcComponentPins_skip (fun sn hsn => by
        rw [hs] at hsn
        injection hsn with e
        subst e
        exact hl)] at h
      injection h with h
      subst h
      cases hp
    | some shapePins =>
      cases hcx : c.x with
      | none =>
        rw [calcComponentPins_keyError hs hl (Or.inl hcx)] at h
        cases h
      | some cx =>
        cases hcy : c.y with
        | none =>
          rw [calcComponentPins_keyError hs hl (Or.inr hcy)] at h
          cases h
        | some cy =>
          rw [calcComponentPins_ok hs hl hcx hcy] at h
          injection h with h
          subst h
          by_cases hcond : pyStartsWith compName "L-D" = true ∧
              (shapePins.map (computePin signals compName c cx cy)).length = 2
          · rw [if_pos hcond] at hp
            rcases mem_swap_sort hp with ⟨q, hq, hc, _, _, _⟩
            rcases List.mem_map.mp hq with ⟨sp, _, hq'⟩
            rw [hc, ← hq']
            rfl
          · rw [if_neg hcond] at hp
            rcases List.mem_map.mp hp with ⟨sp, _, hq'⟩
            rw [← hq']
            rfl

/-- Every resolved pin belongs to some component of the table. -/
theorem calcAll_mem_component {shapes : Shapes} {signals : Signals}
    {comps : Components} {pins : List Pin}
    (h : calculatePinPositions shapes signals comps = .ok pins) :
    ∀ p ∈ pins, ∃ nc ∈ comps, p.component = nc.1 := by
  induction comps generalizing pins with
  | nil =>
    simp only [calculatePinPositions] at h
    injection h with h
    subst h
    intro p hp
    cases hp
  | cons nc rest ih =>
    obtain ⟨n, c⟩ := nc
    simp only [calculatePinPositions] at h
    cases hhead : calcComponentPins shapes signals n c with
    | error e =>
      rw [hhead] at h
      cases h
    | ok ps =>
      rw [hhead] at h
      cases hrest : calculatePinPositions shapes signals rest with
      | error e =>
        rw [hrest] at h
        cases h
      | ok qs =>
        rw [hrest] at h
        injection h with h
        subst h
        intro p hp
        rcases List.mem_append.mp hp with hp | hp
        · exact ⟨(n, c), List.mem_cons_self _ _,
            calcComponentPins_component hhead p hp⟩
        · rcases ih hrest p hp with ⟨mc, hmc, hc⟩
          exact ⟨mc, List.mem_cons_of_mem _ hmc, hc⟩

/-- Resolution over the whole table decomposes componentwise: with unique
component names, the pins of component `n` are exactly the pins its own
per-component resolution produced, in order. -/
theorem calculatePinPositions_filter {shapes : Shapes} {signals : Signals}
    {comps : Components} {pins : List Pin} {n : String} {c : ComponentData}
    (hnd : (comps.map Prod.fst).Nodup)
    (h : calculatePinPositions shapes signals comps = .ok pins)
    (hmem : (n, c) ∈ comps) :
    ∃ l, calcComponentPins shapes signals n c = .ok l ∧
      pins.filter (fun p => p.component = n) = l := by
  induction comps generalizing pins with
  | nil => cases hmem
  | cons nc rest ih =>
    obtain ⟨n', c'⟩ := nc
    simp only [calculatePinPositions] at h
    cases hhead : calcComponentPins shapes signals n' c' with
    | error e =>
      rw [hhead] at h
      cases h
    | ok ps =>
      rw [hhead] at h
      cases hrest : calculatePinPositions shapes signals rest with
      | error e =>
        rw [hrest] at h
        cases h
      | ok qs =>
        rw [hrest] at h
        injection h with h
        subst h
        simp only [List.map_cons, List.nodup_cons] at hnd
        obtain ⟨hn1, hn2⟩ := hnd
        rcases List.mem_cons.mp hmem with hh | hh
        · have hn'n : n' = n := congrArg Prod.fst hh.symm
          have hc'c : c' = c := congrArg Prod.snd hh.symm
          subst hn'n
          subst hc'c
          refine ⟨ps, hhead, ?_⟩
          rw [List.filter_append]
          have hps : ps.filter (fun p => p.component = n') = ps := by
            rw [List.filter_eq_self]
            intro a ha
            simp only [decide_eq_true_eq]
            exact calcComponentPins_component hhead a ha
          have hqs : qs.filter (fun p => p.component = n') = [] := by
            rw [List.filter_eq_nil_iff]
            intro a ha
            simp only [decide_eq_true_eq]
            intro hcomp
            apply hn1
            rcases calcAll_mem_component hrest a ha with ⟨mc, hmc, hcomp'⟩
            rw [← hcomp, hcomp']
            exact List.mem_map_of_mem Prod.fst hmc
          rw [hps, hqs, List.append_nil]
        · have hps : ps.filter (fun p => p.component = n) = [] := by
            rw [List.filter_eq_nil_iff]
            intro a ha
            simp only [decide_eq_true_eq]
            intro hcomp
            apply hn1
            have hn'c : n' = n := by
              rw [← calcComponentPins_component hhead a ha, hcomp]
            rw [hn'c]
            have := List.mem_map_of_mem Prod.fst hh
            simpa using this
          rcases ih hn2 hrest hh with ⟨l, hl1, hl2⟩
          refine ⟨l, hl1, ?_⟩
          rw [List.filter_append, hps, List.nil_append, hl2]

/-! ## Lemmas about the net lookup -/

/-- `find?` returns the first element after a failing prefix. -/
theorem find?_first {α : Type} {p : α → Bool} (pre : List α) (x : α) (post : List α)
    (hpre : ∀ a ∈ pre, p a = false) (hx : p x = true) :
    (pre ++ x :: post).find? p = some x := by
  induction pre with
  | nil =>
    simp only [List.nil_append, List.find?_cons, hx]
  | cons a as ih =>
    have ha : p a = false := hpre a (List.mem_cons_self a as)
    simp only [List.cons_append, List.find?_cons, ha]
    exact ih (fun b hb => hpre b (List.mem_cons_of_mem a hb))

/-- Endpoint containment agrees with list membership. -/
theorem contains_pair_iff (l : List (String × String)) (e : String × String) :
    l.contains e = true ↔ e ∈ l := List.elem_iff

/-- Full case analysis of `_find_signal`: either no net's endpoint list holds
the pair and the sentinel is returned, or the table splits at the first net
holding the pair and that net's name is returned. -/
theorem findSignal_spec (signals : Signals) (component pin : String) :
    (findSignal signals component pin = "unconnected" ∧
       ∀ s ∈ signals, (component, pin) ∉ s.2) ∨
    (∃ pre s post, signals = pre ++ s :: post ∧ (component, pin) ∈ s.2 ∧
       (∀ t ∈ pre, (component, pin) ∉ t.2) ∧
       findSignal signals component pin = s.1) := by
  cases hfind : signals.find? (fun t => t.2.contains (component, pin)) with
  | none =>
    left
    constructor
    · rw [findSignal, hfind]
    · intro s hs hmem
      have := List.find?_eq_none.mp hfind s hs
      exact this ((contains_pair_iff _ _).mpr hmem)
  | some s =>
    right
    rcases List.find?_eq_some.mp hfind with ⟨hps, pre, post, heq, hpre⟩
    refine ⟨pre, s, post, heq, (contains_pair_iff _ _).mp hps, ?_, ?_⟩
    · intro t ht hmem
      have := hpre t ht
      simp only [Bool.not_eq_true'] at this
      rw [(contains_pair_iff _ _).mpr hmem] at this
      cases this
    · rw [findSignal, hfind]

/-! ## Claim C5 -/

/-- Claim C5: the net assigned to a resolved pin is found by scanning every
net's endpoint list for an exact `(component name, pin name)` pair: the
first net (in signal-table insertion order) containing the pair supplies the
name, and a pin contained in no net receives the sentinel `"unconnected"`
instead of failing. -/
theorem C5_find_signal_lookup (signals : Signals) (component pin : String) :
    ((∀ s ∈ signals, (component, pin) ∉ s.2) →
        findSignal signals component pin = "unconnected") ∧
    (∀ pre nm conns post, signals = pre ++ (nm, conns) :: post →
        (component, pin) ∈ conns → (∀ s ∈ pre, (component, pin) ∉ s.2) →
        findSignal signals component pin = nm) := by
  constructor
  · intro h
    rw [findSignal]
    rw [List.find?_eq_none.mpr]
    intro s hs
    simp only [Bool.not_eq_true]
    rw [← Bool.not_eq_true]
    intro hc
    exact h s hs ((contains_pair_iff _ _).mp hc)
  · intro pre nm conns post heq hmem hpre
    rw [findSignal, heq]
    rw [find?_first pre (nm, conns) post]
    · intro a ha
      rw [← Bool.not_eq_true]
      intro hc
      exact hpre a ha ((contains_pair_iff _ _).mp hc)
    · exact (contains_pair_iff _ _).mpr hmem

/-- Witness for C5 at a concrete signal table: the pair `("C","1")` occurs
in both nets, and the first one (net `"A"`) wins; a pair in no net yields
the sentinel. -/
theorem C5_find_signal_lookup_witness :
    findSignal [("A", [("C", "1")]), ("B", [("C", "1")])] "C" "1" = "A" ∧
    findSignal [("A", [("C", "1")]), ("B", [("C", "1")])] "X" "9" = "unconnected" :=
  ⟨(C5_find_signal_lookup [("A", [("C", "1")]), ("B", [("C", "1")])] "C" "1").2
      [] "A" [("C", "1")] [("B", [("C", "1")])] rfl (by decide) (by decide),
   (C5_find_signal_lookup [("A", [("C", "1")]), ("B", [("C", "1")])] "X" "9").1 (by decide)⟩

/-! ## Claim C3 -/

/-- Claim C3 counterexample: a flipped component whose shape pin sits on a
layer other than `"TOP"`/`"BOTTOM"` (here `"INNER1"`) resolves to layer
`"TOP"`, not to the unchanged `"INNER1"` the claim requires: under `flip`,
the source maps every non-`"TOP"` layer to `"TOP"`. -/
theorem C3_counterexample :
    (calcComponentPins
        [("S", [{ name := "1", pad := "SMD", x := 0, y := 0,
                  layer := "INNER1", rotation := 0 }])]
        []
        "C1"
        { shape := some "S", x := some 0, y := some 0, rotation := some 0,
          mirror_x := false, mirror_y := false, flip := true, layer := none }).map
      (fun l => l.map (fun p => p.layer)) = .ok ["TOP"] ∧
    ("TOP" : String) ≠ "INNER1" := by
  constructor
  · rfl
  · decide

/-- Claim C3 (amended): every resolved pin's layer is derived from its shape
pin's own layer; without `flip` it is kept as-is, and with `flip` the layer
`"TOP"` becomes `"BOTTOM"` while every other layer string (including any
string other than `"TOP"` or `"BOTTOM"`) becomes `"TOP"`. -/
theorem C3_layer_resolution {shapes : Shapes} {signals : Signals}
    {compName : String} {c : ComponentData} {shapeName : String}
    {shapePins : List ShapePin} {l : List Pin}
    (hshape : c.shape = some shapeName)
    (hlook : lookupShape shapes shapeName = some shapePins)
    (hok : calcComponentPins shapes signals compName c = .ok l) :
    ∀ p ∈ l, ∃ sp ∈ shapePins,
      p.pin_name = sp.name ∧
      p.layer = (if c.flip then (if sp.layer = "TOP" then "BOTTOM" else "TOP")
                 else sp.layer) := by
  intro p hp
  cases hcx : c.x with
  | none =>
    rw [calcComponentPins_keyError hshape hlook (Or.inl hcx)] at hok
    cases hok
  | some cx =>
    cases hcy : c.y with
    | none =>
      rw [calcComponentPins_keyError hshape hlook (Or.inr hcy)] at hok
      cases hok
    | some cy =>
      rw [calcComponentPins_ok hshape hlook hcx hcy] at hok
      injection hok with hok
      subst hok
      have key : ∀ q ∈ shapePins.map (computePin signals compName c cx cy),
          ∃ sp ∈ shapePins, q.pin_name = sp.name ∧
            q.layer = (if c.flip then (if sp.layer = "TOP" then "BOTTOM" else "TOP")
                       else sp.layer) := by
        intro q hq
        rcases List.mem_map.mp hq with ⟨sp, hsp, hq'⟩
        exact ⟨sp, hsp, by rw [← hq']; rfl, by rw [← hq']; rfl⟩
      by_cases hcond : pyStartsWith compName "L-D" = true ∧
          (shapePins.map (computePin signals compName c cx cy)).length = 2
      · rw [if_pos hcond] at hp
        rcases mem_swap_sort hp with ⟨q, hq, _, hn, hl, _⟩
        rcases key q hq with ⟨sp, hsp, h1, h2⟩
        exact ⟨sp, hsp, by rw [hn, h1], by rw [hl, h2]⟩
      · rw [if_neg hcond] at hp
        exact key p hp

/-- Witness for C3 at a concrete flipped component whose shape pin sits on
`"BOTTOM"`: the amended rule maps it to `"TOP"`. -/
theorem C3_layer_resolution_witness :
    (⟨some "S", some 0, some 0, some 0, false, false, true, none⟩ : ComponentData).shape
      = some "S" ∧
    lookupShape [("S", [⟨"1", "SMD", 0, 0, "BOTTOM", 0⟩])] "S" =
      some [(⟨"1", "SMD", 0, 0, "BOTTOM", 0⟩ : ShapePin)] ∧
    calcComponentPins [("S", [⟨"1", "SMD", 0, 0, "BOTTOM", 0⟩])] [] "C1"
        ⟨some "S", some 0, some 0, some 0, false, false, true, none⟩ =
      .ok ([(⟨"1", "SMD", 0, 0, "BOTTOM", 0⟩ : ShapePin)].map
        (computePin [] "C1" ⟨some "S", some 0, some 0, some 0, false, false, true, none⟩ 0 0)) ∧
    (∀ p ∈ [(⟨"1", "SMD", 0, 0, "BOTTOM", 0⟩ : ShapePin)].map
        (computePin [] "C1" ⟨some "S", some 0, some 0, some 0, false, false, true, none⟩ 0 0),
      ∃ sp ∈ [(⟨"1", "SMD", 0, 0, "BOTTOM", 0⟩ : ShapePin)],
        p.pin_name = sp.name ∧
        p.layer = (if (⟨some "S", some 0, some 0, some 0, false, false, true,
            none⟩ : ComponentData).flip
          then (if sp.layer = "TOP" then "BOTTOM" else "TOP") else sp.layer)) :=
  ⟨rfl, rfl, rfl,
   @C3_layer_resolution [("S", [⟨"1", "SMD", 0, 0, "BOTTOM", 0⟩])] [] "C1"
     ⟨some "S", some 0, some 0, some 0, false, false, true, none⟩ "S"
     [⟨"1", "SMD", 0, 0, "BOTTOM", 0⟩]
     ([(⟨"1", "SMD", 0, 0, "BOTTOM", 0⟩ : ShapePin)].map
       (computePin [] "C1" ⟨some "S", some 0, some 0, some 0, false, false, true, none⟩ 0 0))
     rfl rfl rfl⟩

/-! ## Claim C4 -/

/-- Claim C4 counterexample: a parsed component table can hold a component
with a resolvable shape reference but no `PLACE` line; reading its missing
placement (`comp_data['x']`) raises `KeyError`, so pin-position resolution
does abort with an exception even though the input document was read
successfully. -/
theorem C4_counterexample :
    calculatePinPositions [("S", [])] []
        [("C1", ⟨some "S", none, none, none, false, false, false, none⟩)] =
      .error "KeyError" ∧
    ¬ ∃ l, calculatePinPositions [("S", [])] []
        [("C1", ⟨some "S", none, none, none, false, false, false, none⟩)] = .ok l := by
  constructor
  · rfl
  · rintro ⟨l, h⟩
    rw [show calculatePinPositions [("S", [])] []
        [("C1", ⟨some "S", none, none, none, false, false, false, none⟩)] =
        .error "KeyError" from rfl] at h
    cases h

/-- Claim C4 (amended): provided every component whose shape reference
resolves also carries a placement, pin-position resolution raises no
exception; components with a missing or unresolvable shape reference are
skipped and contribute no pins, so the result coincides with resolving only
the components whose shape resolves.  (Without that proviso a component
with a resolvable shape but no placement raises `KeyError`.) -/
theorem C4_resolution_total (shapes : Shapes) (signals : Signals) (comps : Components)
    (h : ∀ nc ∈ comps, resolvableShape shapes nc.2 = true →
      nc.2.x.isSome = true ∧ nc.2.y.isSome = true) :
    ∃ l, calculatePinPositions shapes signals comps = .ok l ∧
      calculatePinPositions shapes signals
        (comps.filter (fun nc => resolvableShape shapes nc.2)) = .ok l := by
  induction comps with
  | nil => exact ⟨[], rfl, rfl⟩
  | cons nc rest ih =>
    obtain ⟨n, c⟩ := nc
    rcases ih (fun mc hmc hres => h mc (List.mem_cons_of_mem _ hmc) hres) with ⟨l, hl1, hl2⟩
    by_cases hres : resolvableShape shapes c = true
    · cases hs : c.shape with
      | none => rw [show resolvableShape shapes c = false by simp [resolvableShape, hs]] at hres; cases hres
      | some shapeName =>
        simp only [resolvableShape, hs] at hres
        rcases Option.isSome_iff_exists.mp hres with ⟨shapePins, hlook⟩
        have hxy := h (n, c) (List.mem_cons_self _ _)
          (by simp only [resolvableShape, hs, hlook]; rfl)
        rcases Option.isSome_iff_exists.mp hxy.1 with ⟨cx, hcx⟩
        rcases Option.isSome_iff_exists.mp hxy.2 with ⟨cy, hcy⟩
        have hok := @calcComponentPins_ok shapes signals n c shapeName shapePins cx cy
          hs hlook hcx hcy
        refine ⟨(if pyStartsWith n "L-D" = true ∧
            (shapePins.map (computePin signals n c cx cy)).length = 2
          then swapCoords (sortPins2 (shapePins.map (computePin signals n c cx cy)))
          else shapePins.map (computePin signals n c cx cy)) ++ l, ?_, ?_⟩
        · simp only [calculatePinPositions]
          rw [hok, hl1]
          rfl
        · rw [List.filter_cons, if_pos (show resolvableShape shapes (n, c).2 = true by
            simp only [resolvableShape, hs, hlook]; rfl)]
          simp only [calculatePinPositions]
          rw [hok, hl2]
          rfl
    · have hskip : calcComponentPins shapes signals n c = .ok [] := by
        apply calcComponentPins_skip
        intro sn hsn
        simp only [resolvableShape, hsn] at hres
        rcases hlk : lookupShape shapes sn with _ | v
        · rfl
        · rw [hlk] at hres
          exact absurd rfl hres
      refine ⟨l, ?_, ?_⟩
      · simp only [calculatePinPositions]
        rw [hskip, hl1]
        rfl
      · rw [List.filter_cons, if_neg (by simpa using hres)]
        exact hl2

/-- Witness for C4: a table holding a fully placed component, a component
with no shape reference, and a component with an unresolvable shape
reference satisfies the proviso, so resolution succeeds and equals the
resolution of the placed component alone. -/
theorem C4_resolution_total_witness :
    (∀ nc ∈ [("A", (⟨some "S", some 1, some 2, some 0, false, false, false,
          none⟩ : ComponentData)),
        ("B", ⟨none, none, none, none, false, false, false, none⟩),
        ("C", ⟨some "MISSING", none, none, none, false, false, false, none⟩)],
      resolvableShape [("S", [⟨"1", "SMD", 0, 0, "TOP", 0⟩])] nc.2 = true →
        nc.2.x.isSome = true ∧ nc.2.y.isSome = true) ∧
    (∃ l, calculatePinPositions [("S", [⟨"1", "SMD", 0, 0, "TOP", 0⟩])] []
        [("A", ⟨some "S", some 1, some 2, some 0, false, false, false, none⟩),
         ("B", ⟨none, none, none, none, false, false, false, none⟩),
         ("C", ⟨some "MISSING", none, none, none, false, false, false, none⟩)] = .ok l ∧
      calculatePinPositions [("S", [⟨"1", "SMD", 0, 0, "TOP", 0⟩])] []
        ([("A", ⟨some "S", some 1, some 2, some 0, false, false, false, none⟩),
          ("B", ⟨none, none, none, none, false, false, false, none⟩),
          ("C", ⟨some "MISSING", none, none, none, false, false, false, none⟩)].filter
            (fun nc => resolvableShape [("S", [⟨"1", "SMD", 0, 0, "TOP", 0⟩])] nc.2)) =
        .ok l) :=
  ⟨by decide,
   C4_resolution_total [("S", [⟨"1", "SMD", 0, 0, "TOP", 0⟩])] []
     [("A", ⟨some "S", some 1, some 2, some 0, false, false, false, none⟩),
      ("B", ⟨none, none, none, none, false, false, false, none⟩),
      ("C", ⟨some "MISSING", none, none, none, false, false, false, none⟩)]
     (by decide)⟩

/-! ## Claim C6 -/

/-- Claim C6 counterexample: a net whose single endpoint references a
component absent from the resolved pin set is emitted with `pin_count` 0
and an empty `components` string; the claim demands every endpoint be
joined (`"X:1"`, count 1). -/
theorem C6_counterexample :
    exportNetlist [("N1", [("X", "1")])] [] =
      [{ signal := "N1", pin_count := 0, components := "" }] ∧
    (0 : Nat) ≠ 1 ∧ ("" : String) ≠ "X:1" := by
  refine ⟨rfl, by decide, by decide⟩

/-- Claim C6 (amended): the netlist summary has exactly one row per net, in
table order; a row's `pin_count` is the number of the net's endpoints that
match some resolved pin exactly on `(component, pin name)`, and its
`components` field joins exactly those matching endpoints' `component:pin`
texts with `", "` (endpoints matching no resolved pin are dropped from both
the count and the join). -/
theorem C6_netlist_rows (signals : Signals) (pins : List Pin) :
    (exportNetlist signals pins).length = signals.length ∧
    (∀ (k : Nat) (nm : String) (conns : List (String × String)),
        signals[k]? = some (nm, conns) →
      (exportNetlist signals pins)[k]? = some
        ({ signal := nm,
           pin_count := (conns.filter (fun e =>
             ∃ p ∈ pins, p.component = e.1 ∧ p.pin_name = e.2)).length,
           components := String.intercalate ", " ((conns.filter (fun e =>
             ∃ p ∈ pins, p.component = e.1 ∧ p.pin_name = e.2)).map
               (fun e => e.1 ++ ":" ++ e.2)) } : NetRow)) := by
  have hfilter : ∀ conns : List (String × String),
      conns.filter (fun e =>
        (pins.find? (fun p => p.component = e.1 ∧ p.pin_name = e.2)).isSome) =
      conns.filter (fun e =>
        ∃ p ∈ pins, p.component = e.1 ∧ p.pin_name = e.2) := by
    intro conns
    apply List.filter_congr
    intro e _
    have hiff := @List.find?_isSome Pin pins
      (fun p => decide (p.component = e.1 ∧ p.pin_name = e.2))
    simp only [decide_eq_true_eq] at hiff
    by_cases h : ∃ p ∈ pins, p.component = e.1 ∧ p.pin_name = e.2
    · rw [hiff.mpr h, decide_eq_true h]
    · have h1 : (pins.find? (fun p =>
          p.component = e.1 ∧ p.pin_name = e.2)).isSome = false := by
        rw [← Bool.not_eq_true]
        intro hc
        exact h (hiff.mp hc)
      rw [h1, decide_eq_false h]
  constructor
  · simp [exportNetlist]
  · intro k nm conns hk
    simp only [exportNetlist, List.getElem?_map, hk, Option.map_some']
    rw [hfilter conns]

/-- Witness for C6 at a concrete table: net `"N"` has one endpoint matching
a resolved pin and one dangling endpoint. -/
theorem C6_netlist_rows_witness :
    ([("N", [("A", "1"), ("X", "9")])] : Signals)[0]? = some ("N", [("A", "1"), ("X", "9")]) ∧
    (exportNetlist [("N", [("A", "1"), ("X", "9")])] [⟨"A", "1", 0, 0, "TOP", "N"⟩])[0]? = some
      ({ signal := "N",
         pin_count := ([("A", "1"), ("X", "9")].filter (fun e =>
           ∃ p ∈ [(⟨"A", "1", 0, 0, "TOP", "N"⟩ : Pin)],
             p.component = e.1 ∧ p.pin_name = e.2)).length,
         components := String.intercalate ", " (([("A", "1"), ("X", "9")].filter (fun e =>
           ∃ p ∈ [(⟨"A", "1", 0, 0, "TOP", "N"⟩ : Pin)],
             p.component = e.1 ∧ p.pin_name = e.2)).map
               (fun e => e.1 ++ ":" ++ e.2)) } : NetRow) :=
  ⟨rfl, (C6_netlist_rows [("N", [("A", "1"), ("X", "9")])]
      [⟨"A", "1", 0, 0, "TOP", "N"⟩]).2 0 "N" [("A", "1"), ("X", "9")] rfl⟩


/-! ## Claim C8 -/

/-- Summing a flat map in which only (at most) the one group named `s`
contributes. -/
theorem length_flatMap_single {β : Type} (g : String → List β) (sigs : List String)
    (s : String) (hnd : sigs.Nodup) :
    (sigs.flatMap (fun t => if t = s then g t else [])).length =
      if s ∈ sigs then (g s).length else 0 := by
  induction sigs with
  | nil => simp
  | cons a rest ih =>
    rw [List.nodup_cons] at hnd
    obtain ⟨ha, hnd'⟩ := hnd
    simp only [List.flatMap_cons, List.length_append]
    by_cases has : a = s
    · subst has
      rw [if_pos rfl, ih hnd', if_neg ha, if_pos (List.mem_cons_self a rest)]
      simp
    · rw [if_neg has, ih hnd']
      by_cases hmem : s ∈ rest
      · rw [if_pos hmem, if_pos (List.mem_cons_of_mem a hmem)]
        simp
      · rw [if_neg hmem, if_neg (by
          intro hC
          rcases List.mem_cons.mp hC with h | h
          · exact has h.symm
          · exact hmem h)]
        simp

/-- Filtering the flat map of per-net groups for one net name counts just
that net's group. -/
theorem filter_flatMap_groups_length {β : Type} (sigs : List String)
    (g : String → List β) (sigOf : β → String) (s : String)
    (hsig : ∀ t ∈ sigs, ∀ r ∈ g t, sigOf r = t)
    (hnd : sigs.Nodup) :
    ((sigs.flatMap g).filter (fun r => sigOf r = s)).length =
      if s ∈ sigs then (g s).length else 0 := by
  rw [List.filter_flatMap]
  have hpt : ∀ t ∈ sigs, List.filter (fun r => decide (sigOf r = s)) (g t) =
      (fun t => if t = s then g t else []) t := by
    intro t ht
    show List.filter (fun r => decide (sigOf r = s)) (g t) = if t = s then g t else []
    by_cases hts : t = s
    · rw [if_pos hts]
      rw [List.filter_eq_self.mpr]
      intro r hr
      rw [decide_eq_true_eq, hsig t ht r hr]
      exact hts
    · rw [if_neg hts]
      rw [List.filter_eq_nil_iff.mpr]
      intro r hr
      rw [decide_eq_true_eq, hsig t ht r hr]
      exact hts
  rw [List.flatMap_congr hpt]
  exact length_flatMap_single g sigs s hnd

/-- Claim C8: `export_connections_to_csv` emits, for every net other than
the `"unconnected"` sentinel, exactly `n * (n-1) / 2` rows where `n` is the
number of resolved pins assigned that net (so 4 pins give 6 rows and 1 pin
gives 0 rows), and pins marked `"unconnected"` contribute no rows at all:
dropping them beforehand leaves the export unchanged. -/
theorem C8_connection_pair_count (pins : List Pin) (s : String)
    (hs : s ≠ "unconnected") :
    ((exportConnections pins).filter (fun r => r.signal = s)).length =
      (pins.filter (fun p => p.signal = s)).length *
        ((pins.filter (fun p => p.signal = s)).length - 1) / 2 ∧
    exportConnections pins =
      exportConnections (pins.filter (fun p => p.signal ≠ "unconnected")) := by
  constructor
  · have hrows := filter_flatMap_groups_length
      (dedupFirst ((pins.filter (fun p => p.signal ≠ "unconnected")).map (fun p => p.signal)))
      (fun t => (pairsList (pins.filter (fun p => p.signal = t))).map (connRowOf t))
      ConnRow.signal s
      (by
        intro t _ r hr
        rcases List.mem_map.mp hr with ⟨pq, _, hq'⟩
        rw [← hq']
        rfl)
      (nodup_dedupFirst _)
    have hexp : ((exportConnections pins).filter (fun r => r.signal = s)).length =
        if s ∈ dedupFirst ((pins.filter
            (fun p => p.signal ≠ "unconnected")).map (fun p => p.signal))
        then ((pairsList (pins.filter (fun p => p.signal = s))).map (connRowOf s)).length
        else 0 := by
      simp only [exportConnections]
      exact hrows
    rw [hexp]
    by_cases hmem : s ∈ dedupFirst ((pins.filter
        (fun p => p.signal ≠ "unconnected")).map (fun p => p.signal))
    · rw [if_pos hmem, List.length_map]
      have hdb := pairsList_length_two_mul (pins.filter (fun p => p.signal = s))
      omega
    · rw [if_neg hmem]
      have hempty : pins.filter (fun p => p.signal = s) = [] := by
        rw [List.filter_eq_nil_iff]
        intro p hp
        rw [decide_eq_true_eq]
        intro hps
        apply hmem
        rw [mem_dedupFirst]
        rw [List.mem_map]
        refine ⟨p, ?_, hps⟩
        rw [List.mem_filter]
        exact ⟨hp, by rw [decide_eq_true_eq, hps]; exact hs⟩
      rw [hempty]
      rfl
  · simp only [exportConnections]
    have hsigs : ((pins.filter (fun p => p.signal ≠ "unconnected")).filter
        (fun p => p.signal ≠ "unconnected")) = pins.filter (fun p => p.signal ≠ "unconnected") := by
      rw [List.filter_filter]
      apply List.filter_congr
      intro p _
      exact Bool.and_self _
    rw [hsigs]
    apply List.flatMap_congr
    intro t ht
    have ht' : t ≠ "unconnected" := by
      rw [mem_dedupFirst] at ht
      rcases List.mem_map.mp ht with ⟨p, hp, hps⟩
      rw [List.mem_filter] at hp
      rw [← hps]
      exact of_decide_eq_true hp.2
    have hgrp : (pins.filter (fun p => p.signal ≠ "unconnected")).filter
        (fun p => p.signal = t) = pins.filter (fun p => p.signal = t) := by
      rw [List.filter_filter]
      apply List.filter_congr
      intro p _
      by_cases hp : p.signal = t
      · rw [decide_eq_true hp]
        rw [decide_eq_true (show p.signal ≠ "unconnected" by rw [hp]; exact ht')]
        rfl
      · rw [decide_eq_false hp]
        rfl
    rw [hgrp]

/-- Witness for C8: a net with four pins yields six rows and a net with one
pin yields zero rows, with an unconnected pin contributing nothing. -/
theorem C8_connection_pair_count_witness :
    ("N" : String) ≠ "unconnected" ∧
    ((exportConnections
        [⟨"A", "1", 0, 0, "TOP", "N"⟩, ⟨"A", "2", 0, 0, "TOP", "N"⟩,
         ⟨"B", "1", 0, 0, "TOP", "N"⟩, ⟨"B", "2", 0, 0, "TOP", "N"⟩,
         ⟨"C", "1", 0, 0, "TOP", "M"⟩, ⟨"D", "1", 0, 0, "TOP", "unconnected"⟩]).filter
      (fun r => r.signal = "N")).length = 6 ∧
    ((exportConnections
        [⟨"A", "1", 0, 0, "TOP", "N"⟩, ⟨"A", "2", 0, 0, "TOP", "N"⟩,
         ⟨"B", "1", 0, 0, "TOP", "N"⟩, ⟨"B", "2", 0, 0, "TOP", "N"⟩,
         ⟨"C", "1", 0, 0, "TOP", "M"⟩, ⟨"D", "1", 0, 0, "TOP", "unconnected"⟩]).filter
      (fun r => r.signal = "M")).length = 0 := by
  refine ⟨by decide, ?_, ?_⟩
  · rw [(C8_connection_pair_count
      [⟨"A", "1", 0, 0, "TOP", "N"⟩, ⟨"A", "2", 0, 0, "TOP", "N"⟩,
       ⟨"B", "1", 0, 0, "TOP", "N"⟩, ⟨"B", "2", 0, 0, "TOP", "N"⟩,
       ⟨"C", "1", 0, 0, "TOP", "M"⟩, ⟨"D", "1", 0, 0, "TOP", "unconnected"⟩]
      "N" (by decide)).1]
    decide
  · rw [(C8_connection_pair_count
      [⟨"A", "1", 0, 0, "TOP", "N"⟩, ⟨"A", "2", 0, 0, "TOP", "N"⟩,
       ⟨"B", "1", 0, 0, "TOP", "N"⟩, ⟨"B", "2", 0, 0, "TOP", "N"⟩,
       ⟨"C", "1", 0, 0, "TOP", "M"⟩, ⟨"D", "1", 0, 0, "TOP", "unconnected"⟩]
      "M" (by decide)).1]
    decide

/-! ## Claim C1 -/

/-- Claim C1 counterexample: for the diode component `"L-D1"` (prefix
`L-D`, two pins, rotation 0, no mirror), the resolved position of pin
`"1"` is `(1, 0)` — the coordinates computed for pin `"2"` — and not the
mirror-rotate-translate composition `(0 + 0, 0 + 0) = (0, 0)` of its own
relative offset, because the diode rule exchanges the two positions. -/
theorem C1_counterexample :
    (calcComponentPins
        [("S", [⟨"1", "SMD", 0, 0, "TOP", 0⟩, ⟨"2", "SMD", 1, 0, "TOP", 0⟩])]
        [] "L-D1"
        ⟨some "S", some 0, some 0, some 0, false, false, false, none⟩).map
      (fun l => l.map (fun p => (p.pin_name, p.x, p.y))) =
      .ok [("1", (1 : ℝ), (0 : ℝ)), ("2", (0 : ℝ), (0 : ℝ))] ∧
    ((1 : ℝ), (0 : ℝ)) ≠ ((0 : ℝ) + 0, (0 : ℝ) + 0) := by
  constructor
  · have h0 : Real.cos (((0 : Int) : ℝ) * Real.pi / 180) = 1 := by
      norm_num
    have h1 : Real.sin (((0 : Int) : ℝ) * Real.pi / 180) = 0 := by
      norm_num
    have hpins : calcComponentPins
        [("S", [⟨"1", "SMD", 0, 0, "TOP", 0⟩, ⟨"2", "SMD", 1, 0, "TOP", 0⟩])]
        [] "L-D1"
        ⟨some "S", some 0, some 0, some 0, false, false, false, none⟩ =
        .ok (swapCoords (sortPins2
          ([⟨"1", "SMD", 0, 0, "TOP", 0⟩, (⟨"2", "SMD", 1, 0, "TOP", 0⟩ : ShapePin)].map
            (computePin [] "L-D1"
              ⟨some "S", some 0, some 0, some 0, false, false, false, none⟩ 0 0)))) := by
      rw [@calcComponentPins_ok
        [("S", [⟨"1", "SMD", 0, 0, "TOP", 0⟩, ⟨"2", "SMD", 1, 0, "TOP", 0⟩])] []
        "L-D1" ⟨some "S", some 0, some 0, some 0, false, false, false, none⟩
        "S" [⟨"1", "SMD", 0, 0, "TOP", 0⟩, ⟨"2", "SMD", 1, 0, "TOP", 0⟩] 0 0
        rfl rfl rfl rfl]
      rw [if_pos ⟨rfl, rfl⟩]
    rw [hpins]
    simp only [List.map_cons, List.map_nil, computePin, rotatePoint, resolvePinLayer,
      sortPins2, swapCoords, Except.map, show pyStrLt "2" "1" = false from by decide,
      Option.getD_some, h0, h1]
    norm_num
  · intro h
    have := congrArg Prod.fst h
    norm_num at this

/-- Claim C1 (amended): for every component with a resolvable shape and a
placement — excluding the `L-D`-prefixed components yielding exactly two
pins, whose two computed positions the diode rule subsequently exchanges —
every resolved pin position is the composition, in this fixed order, of
(a) negating the relative x under mirror-x and the relative y under
mirror-y, (b) rotating by the component rotation (degrees, counter-clockwise
convention), and (c) translating by the placement; in particular with
rotation 0 and no mirror each position is the shape-relative offset plus the
placement. -/
theorem C1_transform_composition (shapes : Shapes) (signals : Signals)
    (compName : String) (c : ComponentData) (shapeName : String)
    (shapePins : List ShapePin) (cx cy : ℝ)
    (hshape : c.shape = some shapeName)
    (hlook : lookupShape shapes shapeName = some shapePins)
    (hx : c.x = some cx) (hy : c.y = some cy)
    (hnd : ¬(pyStartsWith compName "L-D" = true ∧ shapePins.length = 2)) :
    calcComponentPins shapes signals compName c = .ok (shapePins.map (fun sp =>
      { component := compName
        pin_name := sp.name
        x := cx + ((if c.mirror_x then -sp.x else sp.x) *
              Real.cos (((c.rotation.getD 0 : Int) : ℝ) * Real.pi / 180) -
            (if c.mirror_y then -sp.y else sp.y) *
              Real.sin (((c.rotation.getD 0 : Int) : ℝ) * Real.pi / 180))
        y := cy + ((if c.mirror_x then -sp.x else sp.x) *
              Real.sin (((c.rotation.getD 0 : Int) : ℝ) * Real.pi / 180) +
            (if c.mirror_y then -sp.y else sp.y) *
              Real.cos (((c.rotation.getD 0 : Int) : ℝ) * Real.pi / 180))
        layer := resolvePinLayer c.flip sp.layer
        signal := findSignal signals compName sp.name })) ∧
    (c.rotation.getD 0 = 0 → c.mirror_x = false → c.mirror_y = false →
      calcComponentPins shapes signals compName c = .ok (shapePins.map (fun sp =>
        { component := compName
          pin_name := sp.name
          x := cx + sp.x
          y := cy + sp.y
          layer := resolvePinLayer c.flip sp.layer
          signal := findSignal signals compName sp.name }))) := by
  have hgate : ¬(pyStartsWith compName "L-D" = true ∧
      (shapePins.map (computePin signals compName c cx cy)).length = 2) := by
    rw [List.length_map]
    exact hnd
  have hmain : calcComponentPins shapes signals compName c =
      .ok (shapePins.map (computePin signals compName c cx cy)) := by
    rw [calcComponentPins_ok hshape hlook hx hy, if_neg hgate]
  constructor
  · rw [hmain]
    rfl
  · intro hrot hmx hmy
    rw [hmain]
    congr 1
    apply List.map_congr_left
    intro sp _
    simp only [computePin, rotatePoint, hrot, hmx, hmy, Int.cast_zero, zero_mul,
      zero_div, Real.cos_zero, Real.sin_zero, Bool.false_eq_true, if_neg,
      not_false_iff, mul_one, mul_zero, sub_zero, add_zero, zero_add, if_false]

/-- Witness for C1 at a concrete non-diode component with rotation 0 and no
mirror placed at `(10, 20)` with one pin at relative `(1, 2)`. -/
theorem C1_transform_composition_witness :
    ¬(pyStartsWith "R1" "L-D" = true ∧
        ([⟨"1", "SMD", 1, 2, "TOP", 0⟩] : List ShapePin).length = 2) ∧
    (calcComponentPins [("S", [⟨"1", "SMD", 1, 2, "TOP", 0⟩])] [] "R1"
        ⟨some "S", some 10, some 20, some 0, false, false, false, none⟩ =
      .ok (([⟨"1", "SMD", 1, 2, "TOP", 0⟩] : List ShapePin).map (fun sp =>
        { component := "R1"
          pin_name := sp.name
          x := 10 + ((if false then -sp.x else sp.x) *
                Real.cos ((((some (0 : Int)).getD 0 : Int) : ℝ) * Real.pi / 180) -
              (if false then -sp.y else sp.y) *
                Real.sin ((((some (0 : Int)).getD 0 : Int) : ℝ) * Real.pi / 180))
          y := 20 + ((if false then -sp.x else sp.x) *
                Real.sin ((((some (0 : Int)).getD 0 : Int) : ℝ) * Real.pi / 180) +
              (if false then -sp.y else sp.y) *
                Real.cos ((((some (0 : Int)).getD 0 : Int) : ℝ) * Real.pi / 180))
          layer := resolvePinLayer false sp.layer
          signal := findSignal [] "R1" sp.name })) ∧
      calcComponentPins [("S", [⟨"1", "SMD", 1, 2, "TOP", 0⟩])] [] "R1"
          ⟨some "S", some 10, some 20, some 0, false, false, false, none⟩ =
        .ok (([⟨"1", "SMD", 1, 2, "TOP", 0⟩] : List ShapePin).map (fun sp =>
          { component := "R1"
            pin_name := sp.name
            x := 10 + sp.x
            y := 20 + sp.y
            layer := resolvePinLayer false sp.layer
            signal := findSignal [] "R1" sp.name }))) := by
  refine ⟨by decide, ?_⟩
  have h := C1_transform_composition [("S", [⟨"1", "SMD", 1, 2, "TOP", 0⟩])] [] "R1"
    ⟨some "S", some 10, some 20, some 0, false, false, false, none⟩ "S"
    [⟨"1", "SMD", 1, 2, "TOP", 0⟩] 10 20 rfl rfl rfl rfl (by decide)
  exact ⟨h.1, h.2 rfl rfl rfl⟩

/-! ## Claim C2 -/

/-- Claim C2: for a component whose name starts with `"L-D"` and whose
resolved shape yields exactly two pins, the two computed pins are sorted by
pin name (the sorted pair is a permutation of the computed pair with the
names in order) and their `(x, y)` coordinates are exchanged, all other
fields — layer and net assignment included — being kept; with any other pin
count the pins are emitted unswapped. -/
theorem C2_diode_swap (shapes : Shapes) (signals : Signals)
    (compName : String) (c : ComponentData) (shapeName : String)
    (shapePins : List ShapePin) (cx cy : ℝ)
    (hdiode : pyStartsWith compName "L-D" = true)
    (hshape : c.shape = some shapeName)
    (hlook : lookupShape shapes shapeName = some shapePins)
    (hx : c.x = some cx) (hy : c.y = some cy) :
    (shapePins.length = 2 →
      ∃ a b, sortPins2 (shapePins.map (computePin signals compName c cx cy)) = [a, b] ∧
        [a, b].Perm (shapePins.map (computePin signals compName c cx cy)) ∧
        pyStrLt b.pin_name a.pin_name = false ∧
        calcComponentPins shapes signals compName c =
          .ok [{ a with x := b.x, y := b.y }, { b with x := a.x, y := a.y }]) ∧
    (shapePins.length ≠ 2 →
      calcComponentPins shapes signals compName c =
        .ok (shapePins.map (computePin signals compName c cx cy))) := by
  constructor
  · intro hlen
    have hlen' : (shapePins.map (computePin signals compName c cx cy)).length = 2 := by
      rw [List.length_map]
      exact hlen
    rcases List.length_eq_two.mp hlen' with ⟨p, q, hpq⟩
    rcases sortPins2_pair p q with ⟨a, b, hsort, hlt, hor⟩
    refine ⟨a, b, by rw [hpq, hsort], ?_, hlt, ?_⟩
    · rw [hpq]
      rcases hor with h | h
      · rw [h]
      · rw [h]
        exact List.Perm.swap p q []
    · rw [calcComponentPins_ok hshape hlook hx hy, if_pos ⟨hdiode, hlen'⟩, hpq, hsort]
      rfl
  · intro hlen
    rw [calcComponentPins_ok hshape hlook hx hy, if_neg]
    intro hC
    apply hlen
    have h2 := hC.2
    rw [List.length_map] at h2
    exact h2

/-- Witness for C2 at a concrete diode: component `"L-D7"`, two pins, both
branches of the claim instantiated (the second vacuously). -/
theorem C2_diode_swap_witness :
    pyStartsWith "L-D7" "L-D" = true ∧
    ((([⟨"1", "SMD", 0, 0, "TOP", 0⟩, ⟨"2", "SMD", 1, 0, "TOP", 0⟩] : List ShapePin).length = 2 →
      ∃ a b, sortPins2 (([⟨"1", "SMD", 0, 0, "TOP", 0⟩,
            (⟨"2", "SMD", 1, 0, "TOP", 0⟩ : ShapePin)]).map
          (computePin [] "L-D7"
            ⟨some "S", some 0, some 0, some 0, false, false, false, none⟩ 0 0)) = [a, b] ∧
        [a, b].Perm (([⟨"1", "SMD", 0, 0, "TOP", 0⟩,
            (⟨"2", "SMD", 1, 0, "TOP", 0⟩ : ShapePin)]).map
          (computePin [] "L-D7"
            ⟨some "S", some 0, some 0, some 0, false, false, false, none⟩ 0 0)) ∧
        pyStrLt b.pin_name a.pin_name = false ∧
        calcComponentPins [("S", [⟨"1", "SMD", 0, 0, "TOP", 0⟩, ⟨"2", "SMD", 1, 0, "TOP", 0⟩])]
            [] "L-D7" ⟨some "S", some 0, some 0, some 0, false, false, false, none⟩ =
          .ok [{ a with x := b.x, y := b.y }, { b with x := a.x, y := a.y }]) ∧
    (([⟨"1", "SMD", 0, 0, "TOP", 0⟩, ⟨"2", "SMD", 1, 0, "TOP", 0⟩] : List ShapePin).length ≠ 2 →
      calcComponentPins [("S", [⟨"1", "SMD", 0, 0, "TOP", 0⟩, ⟨"2", "SMD", 1, 0, "TOP", 0⟩])]
          [] "L-D7" ⟨some "S", some 0, some 0, some 0, false, false, false, none⟩ =
        .ok (([⟨"1", "SMD", 0, 0, "TOP", 0⟩,
            (⟨"2", "SMD", 1, 0, "TOP", 0⟩ : ShapePin)]).map
          (computePin [] "L-D7"
            ⟨some "S", some 0, some 0, some 0, false, false, false, none⟩ 0 0)))) :=
  ⟨by decide,
   C2_diode_swap [("S", [⟨"1", "SMD", 0, 0, "TOP", 0⟩, ⟨"2", "SMD", 1, 0, "TOP", 0⟩])] []
     "L-D7" ⟨some "S", some 0, some 0, some 0, false, false, false, none⟩ "S"
     [⟨"1", "SMD", 0, 0, "TOP", 0⟩, ⟨"2", "SMD", 1, 0, "TOP", 0⟩] 0 0
     (by decide) rfl rfl rfl rfl⟩

/-! ## Claim C9 -/

/-- Maximal munch through a block of satisfying characters stops exactly at
the first failing character. -/
theorem takeWhile_dropWhile_append {p : Char → Bool} :
    ∀ (a b : List Char), (∀ c ∈ a, p c = true) →
      (∀ c, b.head? = some c → p c = false) →
      (a ++ b).takeWhile p = a ∧ (a ++ b).dropWhile p = b := by
  intro a
  induction a with
  | nil =>
    intro b _ hb
    cases b with
    | nil => exact ⟨rfl, rfl⟩
    | cons c cs =>
      have hc := hb c rfl
      rw [List.nil_append, List.takeWhile_cons, List.dropWhile_cons, hc]
      exact ⟨rfl, rfl⟩
  | cons x xs ih =>
    intro b hall hb
    have hx : p x = true := hall x (List.mem_cons_self x xs)
    rcases ih b (fun c hc => hall c (List.mem_cons_of_mem x hc)) hb with ⟨h1, h2⟩
    rw [List.cons_append, List.takeWhile_cons, List.dropWhile_cons, hx]
    constructor
    · rw [if_pos rfl, h1]
    · rw [if_pos rfl, h2]

/-- `munch1` through a nonempty block of satisfying characters. -/
theorem munch1_spec {p : Char → Bool} (a b : List Char) (ha : a ≠ [])
    (hall : ∀ c ∈ a, p c = true) (hb : ∀ c, b.head? = some c → p c = false) :
    munch1 p (a ++ b) = some (a, b) := by
  rcases takeWhile_dropWhile_append a b hall hb with ⟨h1, h2⟩
  cases a with
  | nil => exact absurd rfl ha
  | cons c cs => simp only [munch1, h1, h2]

/-- `munch1` fails on an empty input or a failing first character. -/
theorem munch1_none {p : Char → Bool} (l : List Char)
    (h : ∀ c, l.head? = some c → p c = false) : munch1 p l = none := by
  cases l with
  | nil => rfl
  | cons c cs =>
    simp only [munch1, List.takeWhile_cons, h c rfl, Bool.false_eq_true, if_false]

/-- A literal matches its own prefix. -/
theorem litTok_spec (cs r : List Char) : litTok cs (cs ++ r) = some r := by
  simp only [litTok, List.take_left, List.drop_left, if_pos]

/-- An optional group consumes nothing at the end of the line. -/
theorem optField_nil (p : Char → Bool) : optField p [] = (none, []) := rfl

/-- An optional group consumes nothing when no whitespace follows. -/
theorem optField_no_ws {p : Char → Bool} (c : Char) (l : List Char)
    (hc : isPyWs c = false) : optField p (c :: l) = (none, c :: l) := by
  have h1 : munch1 isPyWs (c :: l) = none :=
    munch1_none _ (fun d hd => by injection hd with hd; rw [← hd]; exact hc)
  simp only [optField, h1]

/-- An optional group captures a token after whitespace. -/
theorem optField_some {p : Char → Bool} (sp tok rest : List Char)
    (hsp : sp ≠ []) (hspws : ∀ c ∈ sp, isPyWs c = true)
    (htok : tok ≠ []) (htokp : ∀ c ∈ tok, p c = true)
    (htokws : ∀ c, tok.head? = some c → isPyWs c = false)
    (hrest : ∀ c, rest.head? = some c → p c = false) :
    optField p (sp ++ (tok ++ rest)) = (some tok, rest) := by
  have h1 : munch1 isPyWs (sp ++ (tok ++ rest)) = some (sp, tok ++ rest) := by
    apply munch1_spec sp (tok ++ rest) hsp hspws
    intro c hc
    cases tok with
    | nil => exact absurd rfl htok
    | cons t ts =>
      rw [List.cons_append, List.head?_cons] at hc
      injection hc with hc
      rw [← hc]
      exact htokws t rfl
  have h2 : munch1 p (tok ++ rest) = some (tok, rest) :=
    munch1_spec tok rest htok htokp hrest
  simp only [optField, h1, h2]

/-- An optional group backtracks entirely when its token class fails after
the whitespace. -/
theorem optField_fail {p : Char → Bool} (sp rest : List Char)
    (hsp : sp ≠ []) (hspws : ∀ c ∈ sp, isPyWs c = true)
    (hrest : ∀ c, rest.head? = some c → isPyWs c = false ∧ p c = false) :
    optField p (sp ++ rest) = (none, sp ++ rest) := by
  have h1 : munch1 isPyWs (sp ++ rest) = some (sp, rest) :=
    munch1_spec sp rest hsp hspws (fun c hc => (hrest c hc).1)
  have h2 : munch1 p rest = none := munch1_none _ (fun c hc => (hrest c hc).2)
  simp only [optField, h1, h2]

/-- A word character is not whitespace. -/
theorem not_ws_of_word {c : Char} (h : isPyWord c = true) : isPyWs c = false := by
  rw [← Bool.not_eq_true]
  intro hws
  have hc : c = ' ' ∨ c = '\t' ∨ c = '\n' ∨ c = '\r' ∨ c = '\x0b' ∨ c = '\x0c' := by
    simpa [isPyWs] using hws
  rcases hc with hc | hc | hc | hc | hc | hc <;> subst hc <;> exact absurd h (by decide)

/-- A digit is not whitespace. -/
theorem not_ws_of_digit {c : Char} (h : isPyDigit c = true) : isPyWs c = false := by
  rw [← Bool.not_eq_true]
  intro hws
  have hc : c = ' ' ∨ c = '\t' ∨ c = '\n' ∨ c = '\r' ∨ c = '\x0b' ∨ c = '\x0c' := by
    simpa [isPyWs] using hws
  rcases hc with hc | hc | hc | hc | hc | hc <;> subst hc <;> exact absurd h (by decide)

/-- A character of the numeric class is not whitespace. -/
theorem not_ws_of_numcls {c : Char} (h : isNumCls c = true) : isPyWs c = false := by
  rw [← Bool.not_eq_true]
  intro hws
  have hc : c = ' ' ∨ c = '\t' ∨ c = '\n' ∨ c = '\r' ∨ c = '\x0b' ∨ c = '\x0c' := by
    simpa [isPyWs] using hws
  rcases hc with hc | hc | hc | hc | hc | hc <;> subst hc <;> exact absurd h (by decide)

/-- Running the PIN-line pattern over a line of the documented shape
`PIN "<name>" <pad> <x> <y><tail>` (single-space separators) matches the
four mandatory fields and hands the tail to the three optional groups. -/
theorem pinLineGroups_eq (line : String) (nm pd xl yl tail : List Char)
    (t9 t8 t7 t6 t5 t4 t3 t2 t1 t0 : List Char)
    (h9 : t9 = yl ++ tail) (h8 : t8 = ' ' :: t9) (h7 : t7 = xl ++ t8)
    (h6 : t6 = ' ' :: t7) (h5 : t5 = pd ++ t6) (h4 : t4 = ' ' :: t5)
    (h3 : t3 = '"' :: t4) (h2 : t2 = nm ++ t3) (h1 : t1 = '"' :: t2)
    (h0 : t0 = ' ' :: t1)
    (hline : line.toList = 'P' :: 'I' :: 'N' :: t0)
    (hnm : nm ≠ []) (hnmq : ∀ c ∈ nm, c ≠ '"')
    (hpd : pd ≠ []) (hpdw : ∀ c ∈ pd, isPyWord c = true)
    (hxl : xl ≠ []) (hxln : ∀ c ∈ xl, isNumCls c = true)
    (hyl : yl ≠ []) (hyln : ∀ c ∈ yl, isNumCls c = true)
    (htail : ∀ c, tail.head? = some c → isNumCls c = false) :
    pinLineGroups line = some
      { name := nm.asString, pad := pd.asString,
        x := xl.asString, y := yl.asString,
        g5 := (optField isPyWord tail).1.map List.asString,
        g6 := (optField isPyDigit (optField isPyWord tail).2).1.map List.asString,
        g7 := (optField isPyDigit
          (optField isPyDigit (optField isPyWord tail).2).2).1.map List.asString } := by
  have eA : litTok "PIN".toList line.toList = some t0 := by
    rw [hline]
    exact litTok_spec "PIN".toList t0
  have eB : munch1 isPyWs t0 = some ([' '], t1) := by
    rw [h0]
    exact munch1_spec [' '] t1 (by decide) (by decide)
      (fun c hc => by
        rw [h1, List.head?_cons] at hc
        injection hc with hc
        rw [← hc]
        decide)
  have eC : litTok ['"'] t1 = some t2 := by
    rw [h1]
    exact litTok_spec ['"'] t2
  have eD : munch1 (fun c => c ≠ '"') t2 = some (nm, t3) := by
    rw [h2]
    exact munch1_spec nm t3 hnm
      (fun c hc => decide_eq_true (hnmq c hc))
      (fun c hc => by
        rw [h3, List.head?_cons] at hc
        injection hc with hc
        rw [← hc]
        decide)
  have eE : litTok ['"'] t3 = some t4 := by
    rw [h3]
    exact litTok_spec ['"'] t4
  have eF : munch1 isPyWs t4 = some ([' '], t5) := by
    rw [h4]
    apply munch1_spec [' '] t5 (by decide) (by decide)
    intro c hc
    rw [h5] at hc
    cases pd with
    | nil => exact absurd rfl hpd
    | cons d ds =>
      rw [List.cons_append, List.head?_cons] at hc
      injection hc with hc
      rw [← hc]
      exact not_ws_of_word (hpdw d (List.mem_cons_self d ds))
  have eG : munch1 isPyWord t5 = some (pd, t6) := by
    rw [h5]
    apply munch1_spec pd t6 hpd hpdw
    intro c hc
    rw [h6, List.head?_cons] at hc
    injection hc with hc
    rw [← hc]
    decide
  have eH : munch1 isPyWs t6 = some ([' '], t7) := by
    rw [h6]
    apply munch1_spec [' '] t7 (by decide) (by decide)
    intro c hc
    rw [h7] at hc
    cases xl with
    | nil => exact absurd rfl hxl
    | cons d ds =>
      rw [List.cons_append, List.head?_cons] at hc
      injection hc with hc
      rw [← hc]
      exact not_ws_of_numcls (hxln d (List.mem_cons_self d ds))
  have eI : munch1 isNumCls t7 = some (xl, t8) := by
    rw [h7]
    apply munch1_spec xl t8 hxl hxln
    intro c hc
    rw [h8, List.head?_cons] at hc
    injection hc with hc
    rw [← hc]
    decide
  have eJ : munch1 isPyWs t8 = some ([' '], t9) := by
    rw [h8]
    apply munch1_spec [' '] t9 (by decide) (by decide)
    intro c hc
    rw [h9] at hc
    cases yl with
    | nil => exact absurd rfl hyl
    | cons d ds =>
      rw [List.cons_append, List.head?_cons] at hc
      injection hc with hc
      rw [← hc]
      exact not_ws_of_numcls (hyln d (List.mem_cons_self d ds))
  have eK : munch1 isNumCls t9 = some (yl, tail) := by
    rw [h9]
    exact munch1_spec yl tail hyl hyln htail
  simp only [pinLineGroups, eA, eB, eC, eD, eE, eF, eG, eH, eI, eJ, eK,
    Option.bind_eq_bind, Option.some_bind]
  rfl

set_option maxHeartbeats 1600000 in
/-- Claim C9 (amended): in a PIN line `PIN "<name>" <pad> <x> <y> [layer]
[rotation]`, the layer defaults to `"TOP"` exactly when no fifth token
follows, and a supplied layer token is stored as given; the rotation is
taken from the sixth token only as the integer value of its maximal leading
run of decimal digits, defaulting to `0` when the token is absent or does
not begin with a digit — so a nonnegative integer rotation is stored as
given, while a negative rotation (or any token with a non-digit first
character) defaults to `0` and a fractional rotation is truncated at the
first non-digit. -/
theorem C9_optional_field_defaults (name pad xs ys layer : String)
    (hname : name.toList ≠ []) (hnameq : ∀ c ∈ name.toList, c ≠ '"')
    (hpad : pad.toList ≠ []) (hpadw : ∀ c ∈ pad.toList, isPyWord c = true)
    (hxs : xs.toList ≠ []) (hxsn : ∀ c ∈ xs.toList, isNumCls c = true)
    (hys : ys.toList ≠ []) (hysn : ∀ c ∈ ys.toList, isNumCls c = true)
    (hlay : layer.toList ≠ []) (hlayw : ∀ c ∈ layer.toList, isPyWord c = true) :
    parsePinRecord ("PIN \"" ++ name ++ "\" " ++ pad ++ " " ++ xs ++ " " ++ ys) =
      some ⟨name, pad, xs, ys, "TOP", 0⟩ ∧
    parsePinRecord ("PIN \"" ++ name ++ "\" " ++ pad ++ " " ++ xs ++ " " ++ ys ++
        " " ++ layer) = some ⟨name, pad, xs, ys, layer, 0⟩ ∧
    (∀ ds rest : List Char, ds ≠ [] → (∀ c ∈ ds, isPyDigit c = true) →
      (∀ c, rest.head? = some c → isPyDigit c = false) →
      parsePinRecord ("PIN \"" ++ name ++ "\" " ++ pad ++ " " ++ xs ++ " " ++ ys ++
          " " ++ layer ++ " " ++ (ds ++ rest).asString) =
        some ⟨name, pad, xs, ys, layer, (digitsToNat ds : Int)⟩) ∧
    (∀ (c : Char) (cs : List Char), isPyDigit c = false → isPyWs c = false →
      parsePinRecord ("PIN \"" ++ name ++ "\" " ++ pad ++ " " ++ xs ++ " " ++ ys ++
          " " ++ layer ++ " " ++ (c :: cs).asString) =
        some ⟨name, pad, xs, ys, layer, 0⟩) := by
  have hlayhead : ∀ c, layer.toList.head? = some c → isPyWs c = false := by
    intro c hc
    cases hl : layer.toList with
    | nil => rw [hl] at hc; cases hc
    | cons d ds =>
      rw [hl, List.head?_cons] at hc
      injection hc with hc
      rw [← hc]
      exact not_ws_of_word (hlayw d (by rw [hl]; exact List.mem_cons_self d ds))
  refine ⟨?_, ?_, ?_, ?_⟩
  · have hline : ("PIN \"" ++ name ++ "\" " ++ pad ++ " " ++ xs ++ " " ++ ys).toList =
        'P' :: 'I' :: 'N' :: (' ' :: ('"' :: (name.toList ++ ('"' :: (' ' ::
          (pad.toList ++ (' ' :: (xs.toList ++ (' ' :: ys.toList))))))))) := by
      simp only [String.toList, String.data_append, List.append_assoc]
      rfl
    have hg := pinLineGroups_eq _ name.toList pad.toList xs.toList ys.toList []
      ys.toList _ _ _ _ _ _ _ _ _
      (List.append_nil ys.toList).symm rfl rfl rfl rfl rfl rfl rfl rfl rfl
      hline hname hnameq hpad hpadw hxs hxsn hys hysn
      (fun c hc => by cases hc)
    simp only [parsePinRecord, hg, Option.map_some']
    rfl
  · have hline : ("PIN \"" ++ name ++ "\" " ++ pad ++ " " ++ xs ++ " " ++ ys ++
        " " ++ layer).toList =
        'P' :: 'I' :: 'N' :: (' ' :: ('"' :: (name.toList ++ ('"' :: (' ' ::
          (pad.toList ++ (' ' :: (xs.toList ++ (' ' :: (ys.toList ++
            (' ' :: layer.toList))))))))))) := by
      simp only [String.toList, String.data_append, List.append_assoc]
      rfl
    have hg := pinLineGroups_eq _ name.toList pad.toList xs.toList ys.toList
      (' ' :: layer.toList) _ _ _ _ _ _ _ _ _ _
      rfl rfl rfl rfl rfl rfl rfl rfl rfl rfl
      hline hname hnameq hpad hpadw hxs hxsn hys hysn
      (fun c hc => by injection hc with hc; rw [← hc]; decide)
    have e5 : optField isPyWord (' ' :: layer.toList) = (some layer.toList, []) := by
      have := optField_some [' '] layer.toList [] (by decide) (by decide)
        hlay hlayw hlayhead (fun c hc => by cases hc)
      simpa using this
    simp only [parsePinRecord, hg, Option.map_some', e5]
    rfl
  · intro ds rest hds hdsd hrest
    have hline : ("PIN \"" ++ name ++ "\" " ++ pad ++ " " ++ xs ++ " " ++ ys ++
        " " ++ layer ++ " " ++ (ds ++ rest).asString).toList =
        'P' :: 'I' :: 'N' :: (' ' :: ('"' :: (name.toList ++ ('"' :: (' ' ::
          (pad.toList ++ (' ' :: (xs.toList ++ (' ' :: (ys.toList ++
            (' ' :: (layer.toList ++ (' ' :: (ds ++ rest)))))))))))))) := by
      simp only [String.toList, String.data_append, List.append_assoc]
      rfl
    have hg := pinLineGroups_eq _ name.toList pad.toList xs.toList ys.toList
      (' ' :: (layer.toList ++ (' ' :: (ds ++ rest)))) _ _ _ _ _ _ _ _ _ _
      rfl rfl rfl rfl rfl rfl rfl rfl rfl rfl
      hline hname hnameq hpad hpadw hxs hxsn hys hysn
      (fun c hc => by injection hc with hc; rw [← hc]; decide)
    have e5 : optField isPyWord (' ' :: (layer.toList ++ (' ' :: (ds ++ rest)))) =
        (some layer.toList, ' ' :: (ds ++ rest)) := by
      have := optField_some [' '] layer.toList (' ' :: (ds ++ rest))
        (by decide) (by decide) hlay hlayw hlayhead
        (fun c hc => by injection hc with hc; rw [← hc]; decide)
      simpa using this
    have e6 : optField isPyDigit (' ' :: (ds ++ rest)) = (some ds, rest) := by
      have := optField_some [' '] ds rest (by decide) (by decide) hds hdsd
        (fun c hc => by
          cases hd : ds with
          | nil => exact absurd hd hds
          | cons d dtl =>
            rw [hd] at hc
            injection hc with hc
            rw [← hc]
            exact not_ws_of_digit (hdsd d (by rw [hd]; exact List.mem_cons_self d dtl)))
        hrest
      simpa using this
    simp only [parsePinRecord, hg, Option.map_some', e5, e6]
    rfl
  · intro c cs hcd hcw
    have hline : ("PIN \"" ++ name ++ "\" " ++ pad ++ " " ++ xs ++ " " ++ ys ++
        " " ++ layer ++ " " ++ (c :: cs).asString).toList =
        'P' :: 'I' :: 'N' :: (' ' :: ('"' :: (name.toList ++ ('"' :: (' ' ::
          (pad.toList ++ (' ' :: (xs.toList ++ (' ' :: (ys.toList ++
            (' ' :: (layer.toList ++ (' ' :: (c :: cs)))))))))))))) := by
      simp only [String.toList, String.data_append, List.append_assoc]
      rfl
    have hg := pinLineGroups_eq _ name.toList pad.toList xs.toList ys.toList
      (' ' :: (layer.toList ++ (' ' :: (c :: cs)))) _ _ _ _ _ _ _ _ _ _
      rfl rfl rfl rfl rfl rfl rfl rfl rfl rfl
      hline hname hnameq hpad hpadw hxs hxsn hys hysn
      (fun d hd => by injection hd with hd; rw [← hd]; decide)
    have e5 : optField isPyWord (' ' :: (layer.toList ++ (' ' :: (c :: cs)))) =
        (some layer.toList, ' ' :: (c :: cs)) := by
      have := optField_some [' '] layer.toList (' ' :: (c :: cs))
        (by decide) (by decide) hlay hlayw hlayhead
        (fun d hd => by injection hd with hd; rw [← hd]; decide)
      simpa using this
    have e6 : optField isPyDigit (' ' :: (c :: cs)) = (none, ' ' :: (c :: cs)) := by
      have := optField_fail [' '] (c :: cs) (by decide) (by decide)
        (fun d hd => by injection hd with hd; rw [← hd]; exact ⟨hcw, hcd⟩)
      simpa using this
    simp only [parsePinRecord, hg, Option.map_some', e5, e6]
    rfl

/-- Claim C9 counterexample: in `PIN "1" SMD 1.0 2.0 TOP -45` the rotation
field `-45` is present and numeric, yet the stored rotation is the default
`0`, because the pattern's rotation group `(\d+)` cannot match a leading
minus sign; the claim demands the supplied value `-45` be stored. -/
theorem C9_counterexample :
    parsePinRecord "PIN \"1\" SMD 1.0 2.0 TOP -45" =
      some { name := "1", pad := "SMD", x := "1.0", y := "2.0",
             layer := "TOP", rotation := 0 } ∧
    (0 : Int) ≠ -45 := by
  exact ⟨by decide, by decide⟩

/-- Witness for C9 at concrete tokens: no trailing fields default the layer
and rotation; a layer token is stored; rotation `45` is stored as 45; the
fractional rotation `45.5` is truncated to 45. -/
theorem C9_optional_field_defaults_witness :
    ("1" : String).toList ≠ [] ∧ (∀ c ∈ ("1" : String).toList, c ≠ '"') ∧
    ("SMD" : String).toList ≠ [] ∧ (∀ c ∈ ("SMD" : String).toList, isPyWord c = true) ∧
    ("1.0" : String).toList ≠ [] ∧ (∀ c ∈ ("1.0" : String).toList, isNumCls c = true) ∧
    ("2.0" : String).toList ≠ [] ∧ (∀ c ∈ ("2.0" : String).toList, isNumCls c = true) ∧
    ("TOP" : String).toList ≠ [] ∧ (∀ c ∈ ("TOP" : String).toList, isPyWord c = true) ∧
    parsePinRecord "PIN \"1\" SMD 1.0 2.0" =
      some { name := "1", pad := "SMD", x := "1.0", y := "2.0",
             layer := "TOP", rotation := 0 } ∧
    parsePinRecord "PIN \"1\" SMD 1.0 2.0 TOP" =
      some { name := "1", pad := "SMD", x := "1.0", y := "2.0",
             layer := "TOP", rotation := 0 } ∧
    parsePinRecord "PIN \"1\" SMD 1.0 2.0 TOP 45" =
      some { name := "1", pad := "SMD", x := "1.0", y := "2.0",
             layer := "TOP", rotation := 45 } ∧
    parsePinRecord "PIN \"1\" SMD 1.0 2.0 TOP 45.5" =
      some { name := "1", pad := "SMD", x := "1.0", y := "2.0",
             layer := "TOP", rotation := 45 } := by
  have h := C9_optional_field_defaults "1" "SMD" "1.0" "2.0" "TOP"
    (by decide) (by decide) (by decide) (by decide) (by decide)
    (by decide) (by decide) (by decide) (by decide) (by decide)
  refine ⟨by decide, by decide, by decide, by decide, by decide, by decide,
    by decide, by decide, by decide, by decide, ?_, ?_, ?_, ?_⟩
  · exact h.1
  · exact h.2.1
  · exact h.2.2.1 ['4', '5'] [] (by decide) (by decide) (fun c hc => by cases hc)
  · exact h.2.2.1 ['4', '5'] ['.', '5'] (by decide) (by decide)
      (fun c hc => by injection hc with hc; rw [← hc]; decide)

/-! ## Claim C7 -/

/-- A projection of a Houdini base row that only reads the underlying pin
factors through the pin list. -/
theorem houdiniBase_map {γ : Type} (pins : List Pin) (f : HRow → γ) (g : Pin → γ)
    (h : ∀ i p, f (houdiniRowOf i p) = g p) :
    (houdiniBase pins).map f = pins.map g := by
  rw [houdiniBase, List.map_map]
  have hfg : (f ∘ fun ip : Nat × Pin => houdiniRowOf ip.1 ip.2) = (g ∘ Prod.snd) :=
    funext fun ip => h ip.1 ip.2
  rw [hfg, ← List.map_map, List.enum_map_snd]

/-- The ids of the base table are the 0-based positions. -/
theorem houdiniBase_map_id (pins : List Pin) :
    (houdiniBase pins).map (fun r => r.id) = List.range pins.length := by
  rw [houdiniBase, List.map_map]
  exact List.enum_map_fst pins

/-- Decomposing membership in the base table. -/
theorem mem_houdiniBase {pins : List Pin} {b : HRow} (hb : b ∈ houdiniBase pins) :
    ∃ i p, p ∈ pins ∧ b = houdiniRowOf i p := by
  rw [houdiniBase] at hb
  rcases List.mem_map.mp hb with ⟨ip, hip, hbe⟩
  obtain ⟨i, p⟩ := ip
  rcases List.mem_enum hip with ⟨hlt, hp⟩
  exact ⟨i, p, by rw [hp]; exact List.getElem_mem hlt, hbe.symm⟩

/-- Unfolding the export: each base row with its recomputed connection
fields. -/
theorem exportHoudini_eq (pins : List Pin) (signals : Signals) :
    exportHoudini pins signals = (houdiniBase pins).map (fun r =>
      { r with connected_to := (rowConnFields (houdiniBase pins) signals r).1,
               connected_ids := (rowConnFields (houdiniBase pins) signals r).2 }) := rfl

/-- A projection that ignores the connection fields factors through the
base table. -/
theorem exportHoudini_map {γ : Type} (pins : List Pin) (signals : Signals)
    (f : HRow → γ)
    (h : ∀ r a c, f { r with connected_to := a, connected_ids := c } = f r) :
    (exportHoudini pins signals).map f = (houdiniBase pins).map f := by
  rw [exportHoudini_eq, List.map_map]
  exact List.map_congr_left fun r _ => h r _ _

/-- A successful `pin_lookup` hit is a table row with the looked-up key. -/
theorem lookupRow_sound {rows : List HRow} {e : String × String} {q : HRow}
    (h : lookupRow rows e = some q) :
    q ∈ rows ∧ (q.component, q.pin_name) = e := by
  rw [lookupRow] at h
  rcases List.getLast?_eq_some_iff.mp h with ⟨ys, hys⟩
  have hq : q ∈ rows.filter (fun r => r.component = e.1 ∧ r.pin_name = e.2) := by
    rw [hys]; simp
  rcases List.mem_filter.mp hq with ⟨h1, h2⟩
  have h3 := of_decide_eq_true h2
  exact ⟨h1, Prod.ext h3.1 h3.2⟩

/-- With distinct keys, `pin_lookup` maps a member's own key back to it. -/
theorem lookupRow_self {rows : List HRow}
    (hkeys : (rows.map (fun r => (r.component, r.pin_name))).Nodup)
    {b : HRow} (hb : b ∈ rows) :
    lookupRow rows (b.component, b.pin_name) = some b := by
  have h1 : rows.filter
      (fun y => (fun r : HRow => (r.component, r.pin_name)) y =
        (fun r : HRow => (r.component, r.pin_name)) b) = [b] :=
    @filter_key_eq_single HRow (String × String) _
      (fun r => (r.component, r.pin_name)) rows hkeys b hb
  have h2 : rows.filter (fun r => r.component = (b.component, b.pin_name).1 ∧
      r.pin_name = (b.component, b.pin_name).2) = [b] := by
    rw [← h1]
    apply List.filter_congr
    intro r _
    rw [decide_eq_decide]
    constructor
    · intro hh; exact Prod.ext hh.1 hh.2
    · intro hh; exact ⟨congrArg Prod.fst hh, congrArg Prod.snd hh⟩
  rw [lookupRow, h2]
  simp

/-- With distinct keys in the table, a row is in a net's `signal_pins`
exactly when it is a table row whose key is an endpoint of the net. -/
theorem mem_signalRows {rows : List HRow}
    (hkeys : (rows.map (fun r => (r.component, r.pin_name))).Nodup)
    {conns : List (String × String)} {q : HRow} :
    q ∈ signalRows rows conns ↔ q ∈ rows ∧ (q.component, q.pin_name) ∈ conns := by
  rw [signalRows]
  constructor
  · intro h
    rcases List.mem_filterMap.mp h with ⟨e, he, hq⟩
    rcases lookupRow_sound hq with ⟨h1, h2⟩
    exact ⟨h1, h2.symm ▸ he⟩
  · rintro ⟨hq, hk⟩
    exact List.mem_filterMap.mpr ⟨(q.component, q.pin_name), hk, lookupRow_self hkeys hq⟩

/-- `signal_pins` of a net with distinct endpoints has distinct rows. -/
theorem nodup_signalRows (rows : List HRow) {conns : List (String × String)}
    (hc : conns.Nodup) : (signalRows rows conns).Nodup := by
  rw [signalRows]
  refine List.Nodup.filterMap ?_ hc
  intro e e' q hq hq'
  rw [Option.mem_def] at hq hq'
  rcases lookupRow_sound hq with ⟨_, h2⟩
  rcases lookupRow_sound hq' with ⟨_, h2'⟩
  exact h2.symm.trans h2'

/-- When no endpoint occurs on two nets (the flattened endpoint lists are
duplicate-free), the net entry containing a given endpoint is unique. -/
theorem endpoint_unique {signals : Signals}
    (hocc : ((signals.map Prod.snd).flatten).Nodup)
    {s t : String × List (String × String)} (hs : s ∈ signals) (ht : t ∈ signals)
    {e : String × String} (hes : e ∈ s.2) (het : e ∈ t.2) : s = t := by
  have hpw : List.Pairwise List.Disjoint (signals.map Prod.snd) :=
    (List.nodup_flatten.mp hocc).2
  rcases List.append_of_mem hs with ⟨l₁, l₂, rfl⟩
  rw [List.map_append, List.map_cons, List.pairwise_append] at hpw
  rcases List.mem_append.mp ht with ht1 | ht2
  · exact absurd hes
      (hpw.2.2 t.2 (List.mem_map_of_mem Prod.snd ht1) s.2 (List.mem_cons_self _ _) het)
  · rcases List.mem_cons.mp ht2 with heq | ht3
    · exact heq.symm
    · have hd := (List.pairwise_cons.mp hpw.2.1).1 t.2 (List.mem_map_of_mem Prod.snd ht3)
      exact absurd het (hd hes)

/-- Claim C7 counterexample: pin `C:1` is listed on both nets `"A"` and
`"B"`, so its assigned signal is `"A"` (first match) while the Houdini
signal loop, whose last write wins, fills its connection fields from net
`"B"`; moreover `C:1` then also appears in the connection fields of the
net-`"B"` pins `D:1` and `E:1` although it does not share their net
attribute.  The claimed value for row `D:1` (id 1) would join only the
other rows with the same `signal` field, giving `"E:1"`; the table
actually holds `"C:1|E:1"`. -/
theorem C7_counterexample :
    ((exportHoudini
          [⟨"C", "1", 0, 0, "TOP", "A"⟩, ⟨"D", "1", 0, 0, "TOP", "B"⟩,
            ⟨"E", "1", 0, 0, "TOP", "B"⟩]
          [("A", [("C", "1")]), ("B", [("C", "1"), ("D", "1"), ("E", "1")])]).map
        (fun r => (r.signal, r.connected_to)) =
      [("A", "D:1|E:1"), ("B", "C:1|E:1"), ("B", "C:1|D:1")]) ∧
    (String.intercalate "|"
        (((exportHoudini
              [⟨"C", "1", 0, 0, "TOP", "A"⟩, ⟨"D", "1", 0, 0, "TOP", "B"⟩,
                ⟨"E", "1", 0, 0, "TOP", "B"⟩]
              [("A", [("C", "1")]), ("B", [("C", "1"), ("D", "1"), ("E", "1")])]).filter
            (fun q => q.signal = "B" ∧ q.id ≠ 1)).map
          (fun q => q.component ++ ":" ++ q.pin_name)) = "E:1") ∧
    "C:1|E:1" ≠ "E:1" := by
  refine ⟨?_, ?_, by decide⟩
  · rfl
  · rfl

/-- Claim C7 (amended): when every pin's net attribute agrees with the
signal lookup, pin keys are unique, no endpoint is listed on two nets, net
names are unique and no net is named `"unconnected"`, every row of the
combined graph table carries the 0-based position as id, z equal to 0 for
layer `"TOP"` and -0.1 otherwise, the initial `"[]"` texts in both
connection fields when its net is the sentinel, and otherwise connection
fields joining (pipe- resp. bracketed-comma-separated) exactly the other
rows of its net. -/
theorem C7_houdini_rows (pins : List Pin) (signals : Signals)
    (hsig : ∀ p ∈ pins, p.signal = findSignal signals p.component p.pin_name)
    (hkeys : (pins.map (fun p => (p.component, p.pin_name))).Nodup)
    (hocc : ((signals.map Prod.snd).flatten).Nodup)
    (hnames : (signals.map Prod.fst).Nodup)
    (hunc : ∀ s ∈ signals, s.1 ≠ "unconnected") :
    ((exportHoudini pins signals).map (fun r => r.id) = List.range pins.length) ∧
    (∀ r ∈ exportHoudini pins signals,
        r.z = if r.layer = "TOP" then (0 : ℝ) else (-0.1 : ℝ)) ∧
    (∀ r ∈ exportHoudini pins signals, r.signal = "unconnected" →
        r.connected_to = "[]" ∧ r.connected_ids = "[]") ∧
    (∀ r ∈ exportHoudini pins signals, r.signal ≠ "unconnected" →
        ∃ peers : List HRow,
          ((peers.map (fun q => (q.component, q.pin_name, q.id))).Perm
            (((exportHoudini pins signals).filter
                (fun q => q.signal = r.signal ∧ q.id ≠ r.id)).map
              (fun q => (q.component, q.pin_name, q.id)))) ∧
          r.connected_to = String.intercalate "|"
            (peers.map (fun q => q.component ++ ":" ++ q.pin_name)) ∧
          r.connected_ids = "[" ++ String.intercalate ","
            (peers.map (fun q => toString q.id)) ++ "]") := by
  have hbkeys : ((houdiniBase pins).map (fun r => (r.component, r.pin_name))).Nodup := by
    rw [houdiniBase_map pins _ (fun p => (p.component, p.pin_name)) (fun i p => rfl)]
    exact hkeys
  have hbids : ((houdiniBase pins).map (fun r => r.id)).Nodup := by
    rw [houdiniBase_map_id]; exact List.nodup_range _
  have hfilt : signals.filter (fun s => s.1 ≠ "unconnected") = signals :=
    List.filter_eq_self.mpr (fun s hs => decide_eq_true (hunc s hs))
  have hbsig : ∀ b ∈ houdiniBase pins,
      b.signal = findSignal signals b.component b.pin_name := by
    intro b hb
    rcases mem_houdiniBase hb with ⟨i, p, hp, rfl⟩
    exact hsig p hp
  refine ⟨?_, ?_, ?_, ?_⟩
  · rw [exportHoudini_map pins signals (fun r => r.id) (fun r a c => rfl),
      houdiniBase_map_id]
  · intro r hr
    rw [exportHoudini_eq] at hr
    rcases List.mem_map.mp hr with ⟨b, hb, rfl⟩
    rcases mem_houdiniBase hb with ⟨i, p, hp, rfl⟩
    rfl
  · intro r hr hrunc
    rw [exportHoudini_eq] at hr
    rcases List.mem_map.mp hr with ⟨b, hb, rfl⟩
    have hbu : b.signal = "unconnected" := hrunc
    have hfind : (signals.filter (fun s => s.1 ≠ "unconnected")).reverse.find?
        (fun s => (signalRows (houdiniBase pins) s.2).any (fun q => q.id = b.id)) =
        none := by
      rw [hfilt]
      apply List.find?_eq_none.mpr
      intro s hs hps
      rw [List.any_eq_true] at hps
      rcases hps with ⟨q, hqsp, hqid⟩
      have hsmem : s ∈ signals := List.mem_reverse.mp hs
      rcases (mem_signalRows hbkeys).mp hqsp with ⟨hqb, hqk⟩
      have hqeb : q = b := eq_of_mem_of_nodup_map hbids hqb hb (of_decide_eq_true hqid)
      subst hqeb
      rcases findSignal_spec signals q.component q.pin_name with
        ⟨hfs, hnone⟩ | ⟨pre, t, post, heqs, hmem, hpre2, hfs⟩
      · exact hnone s hsmem hqk
      · have htm : t ∈ signals := by
          rw [heqs]; exact List.mem_append_right pre (List.mem_cons_self t post)
        have hts : q.signal = t.1 := by rw [hbsig q hqb, hfs]
        exact hunc t htm (hts ▸ hbu)
    have hcf : rowConnFields (houdiniBase pins) signals b =
        (b.connected_to, b.connected_ids) := by
      simp only [rowConnFields]
      rw [hfind]
    rcases mem_houdiniBase hb with ⟨i, p, hp, hbip⟩
    constructor
    · show (rowConnFields (houdiniBase pins) signals b).1 = "[]"
      rw [hcf, hbip]
      rfl
    · show (rowConnFields (houdiniBase pins) signals b).2 = "[]"
      rw [hcf, hbip]
      rfl
  · intro r hr hrc
    rw [exportHoudini_eq] at hr
    rcases List.mem_map.mp hr with ⟨b, hb, rfl⟩
    have hbc : b.signal ≠ "unconnected" := hrc
    rcases findSignal_spec signals b.component b.pin_name with
      ⟨hfs, hnone⟩ | ⟨pre, S, post, heqs, hmem, hpre2, hfs⟩
    · exact absurd (by rw [hbsig b hb, hfs]) hbc
    have hbS : b.signal = S.1 := by rw [hbsig b hb, hfs]
    have hSmem : S ∈ signals := by
      rw [heqs]; exact List.mem_append_right pre (List.mem_cons_self S post)
    have hS2nodup : S.2.Nodup :=
      (List.nodup_flatten.mp hocc).1 S.2 (List.mem_map_of_mem Prod.snd hSmem)
    have hbsp : b ∈ signalRows (houdiniBase pins) S.2 :=
      (mem_signalRows hbkeys).mpr ⟨hb, hmem⟩
    have hfind : (signals.filter (fun s => s.1 ≠ "unconnected")).reverse.find?
        (fun s => (signalRows (houdiniBase pins) s.2).any (fun q => q.id = b.id)) =
        some S := by
      rw [hfilt]
      apply find?_eq_of_unique (List.mem_reverse.mpr hSmem)
      · rw [List.any_eq_true]
        exact ⟨b, hbsp, decide_eq_true rfl⟩
      · intro y hy hpy
        rw [List.any_eq_true] at hpy
        rcases hpy with ⟨q, hqsp, hqid⟩
        rcases (mem_signalRows hbkeys).mp hqsp with ⟨hqb, hqk⟩
        have hqeb : q = b :=
          eq_of_mem_of_nodup_map hbids hqb hb (of_decide_eq_true hqid)
        subst hqeb
        exact endpoint_unique hocc (List.mem_reverse.mp hy) hSmem hqk hmem
    have hspnd : (signalRows (houdiniBase pins) S.2).Nodup :=
      nodup_signalRows _ hS2nodup
    rcases List.append_of_mem hbsp with ⟨u, v, hsp⟩
    have hbuv : b ∉ u ∧ b ∉ v := by
      have h := hspnd
      rw [hsp, List.nodup_append, List.nodup_cons] at h
      exact ⟨fun hbu => h.2.2 hbu (List.mem_cons_self _ _), h.2.1.1⟩
    have huvnd : (u ++ v).Nodup := by
      have h := hspnd
      rw [hsp, List.nodup_append, List.nodup_cons] at h
      rw [List.nodup_append]
      exact ⟨h.1, h.2.1.2, fun a hau hav => h.2.2 hau (List.mem_cons_of_mem b hav)⟩
    have hg1 : ∀ x ∈ u, (decide (x.id = b.id)) = false := by
      intro x hxu
      have hxsp : x ∈ signalRows (houdiniBase pins) S.2 := by
        rw [hsp]; exact List.mem_append_left _ hxu
      have hxb : x ∈ houdiniBase pins := ((mem_signalRows hbkeys).mp hxsp).1
      apply decide_eq_false
      intro hxe
      have hxeb : x = b := eq_of_mem_of_nodup_map hbids hxb hb hxe
      exact hbuv.1 (hxeb ▸ hxu)
    have hg2 : ∀ x ∈ v, (decide (x.id = b.id)) = false := by
      intro x hxv
      have hxsp : x ∈ signalRows (houdiniBase pins) S.2 := by
        rw [hsp]
        exact List.mem_append_right _ (List.mem_cons_of_mem b hxv)
      have hxb : x ∈ houdiniBase pins := ((mem_signalRows hbkeys).mp hxsp).1
      apply decide_eq_false
      intro hxe
      have hxeb : x = b := eq_of_mem_of_nodup_map hbids hxb hb hxe
      exact hbuv.2 (hxeb ▸ hxv)
    have henum1 : ((signalRows (houdiniBase pins) S.2).enum.filter
        (fun jq => jq.2.id = b.id)).getLast? = some (u.length, b) := by
      rw [hsp]
      have h := @enumFrom_filter_single HRow (fun x => decide (x.id = b.id)) u b v 0
        hg1 (decide_eq_true rfl) hg2
      rw [Nat.zero_add] at h
      rw [show ((u ++ b :: v).enum.filter (fun jq => jq.2.id = b.id)) =
        [(u.length, b)] from h]
      rw [List.getLast?_singleton]
    have henum2 : ((signalRows (houdiniBase pins) S.2).enum.filter
        (fun jq => jq.1 ≠ u.length)).map (fun jq => jq.2) = u ++ v := by
      rw [hsp]
      have h := @enumFrom_filter_ne_idx HRow u b v 0
      simp only [Nat.zero_add] at h
      rw [show ((u ++ b :: v).enum.filter (fun jq => jq.1 ≠ u.length)) =
          u.enumFrom 0 ++ v.enumFrom (u.length + 1) from h]
      rw [List.map_append]
      rw [show (u.enumFrom 0).map (fun jq : Nat × HRow => jq.2) = u from
        List.enumFrom_map_snd 0 u]
      rw [show (v.enumFrom (u.length + 1)).map (fun jq : Nat × HRow => jq.2) = v from
        List.enumFrom_map_snd (u.length + 1) v]
    have hcf : rowConnFields (houdiniBase pins) signals b =
        (String.intercalate "|"
          ((u ++ v).map (fun q => q.component ++ ":" ++ q.pin_name)),
         "[" ++ String.intercalate "," ((u ++ v).map (fun q => toString q.id)) ++ "]") := by
      simp only [rowConnFields, hfind, henum1, henum2]
    refine ⟨u ++ v, ?_, ?_, ?_⟩
    · show ((u ++ v).map (fun q => (q.component, q.pin_name, q.id))).Perm
        (((exportHoudini pins signals).filter
            (fun q => q.signal = b.signal ∧ q.id ≠ b.id)).map
          (fun q => (q.component, q.pin_name, q.id)))
      have htrans : (((exportHoudini pins signals).filter
          (fun q => q.signal = b.signal ∧ q.id ≠ b.id)).map
            (fun q => (q.component, q.pin_name, q.id))) =
          (((houdiniBase pins).filter
            (fun q => q.signal = b.signal ∧ q.id ≠ b.id)).map
              (fun q => (q.component, q.pin_name, q.id))) := by
        rw [exportHoudini_eq, List.filter_map, List.map_map]
        rfl
      rw [htrans]
      apply List.Perm.map
      have hbnd : (houdiniBase pins).Nodup := List.Nodup.of_map _ hbids
      rw [List.perm_ext_iff_of_nodup huvnd (hbnd.filter _)]
      intro q
      constructor
      · intro hquv
        have hqsp : q ∈ signalRows (houdiniBase pins) S.2 := by
          rw [hsp]
          rcases List.mem_append.mp hquv with h | h
          · exact List.mem_append_left _ h
          · exact List.mem_append_right _ (List.mem_cons_of_mem b h)
        rcases (mem_signalRows hbkeys).mp hqsp with ⟨hqb, hqk⟩
        have hqnb : q ≠ b := by
          intro hqe; subst hqe
          rcases List.mem_append.mp hquv with h | h
          · exact hbuv.1 h
          · exact hbuv.2 h
        have hqsig : q.signal = S.1 := by
          rw [hbsig q hqb]
          rcases findSignal_spec signals q.component q.pin_name with
            ⟨hfs2, hnone2⟩ | ⟨pre2, T, post2, heqs2, hmem2, hpre3, hfs2⟩
          · exact absurd hqk (hnone2 S hSmem)
          · rw [hfs2]
            have hTmem : T ∈ signals := by
              rw [heqs2]
              exact List.mem_append_right pre2 (List.mem_cons_self T post2)
            rw [endpoint_unique hocc hTmem hSmem hmem2 hqk]
        rw [List.mem_filter]
        refine ⟨hqb, ?_⟩
        rw [decide_eq_true_eq]
        constructor
        · rw [hqsig, hbS]
        · intro hid
          exact hqnb (eq_of_mem_of_nodup_map hbids hqb hb hid)
      · intro hqf
        rw [List.mem_filter, decide_eq_true_eq] at hqf
        rcases hqf with ⟨hqb, hqsig, hqid⟩
        have hq1 : findSignal signals q.component q.pin_name = S.1 := by
          rw [← hbsig q hqb, hqsig, hbS]
        rcases findSignal_spec signals q.component q.pin_name with
          ⟨hfs2, hnone2⟩ | ⟨pre2, T, post2, heqs2, hmem2, hpre3, hfs2⟩
        · rw [hfs2] at hq1
          exact absurd hq1.symm (hunc S hSmem)
        · have hTmem : T ∈ signals := by
            rw [heqs2]
            exact List.mem_append_right pre2 (List.mem_cons_self T post2)
          have hTS : T = S := by
            apply eq_of_mem_of_nodup_map hnames hTmem hSmem
            rw [hfs2] at hq1
            exact hq1
          have hqS : (q.component, q.pin_name) ∈ S.2 := hTS ▸ hmem2
          have hqsp : q ∈ signalRows (houdiniBase pins) S.2 :=
            (mem_signalRows hbkeys).mpr ⟨hqb, hqS⟩
          rw [hsp] at hqsp
          rcases List.mem_append.mp hqsp with h | h
          · exact List.mem_append_left _ h
          · rcases List.mem_cons.mp h with heq | h2
            · exact absurd (congrArg HRow.id heq) hqid
            · exact List.mem_append_right _ h2
    · show (rowConnFields (houdiniBase pins) signals b).1 = _
      rw [hcf]
    · show (rowConnFields (houdiniBase pins) signals b).2 = _
      rw [hcf]

/-- Witness for C7 at a concrete table: three pins, the first two on net
`"N"`, the third unconnected; all five hypotheses hold by computation and
the ids come out as the positions. -/
theorem C7_houdini_rows_witness :
    (exportHoudini
        [⟨"A", "1", 0, 0, "TOP", "N"⟩, ⟨"B", "1", 0, 0, "BOTTOM", "N"⟩,
          ⟨"X", "9", 0, 0, "TOP", "unconnected"⟩]
        [("N", [("A", "1"), ("B", "1")])]).map (fun r => r.id) =
      List.range 3 :=
  (C7_houdini_rows
    [⟨"A", "1", 0, 0, "TOP", "N"⟩, ⟨"B", "1", 0, 0, "BOTTOM", "N"⟩,
      ⟨"X", "9", 0, 0, "TOP", "unconnected"⟩]
    [("N", [("A", "1"), ("B", "1")])]
    (by decide) (by decide) (by decide) (by decide) (by decide)).1

/-! ## Claim C10 -/

/-- `swapPick` only ever touches the coordinates. -/
theorem swapPick_fields (i : Nat) (r : HRow) (s : (Nat × HRow) × (Nat × HRow)) :
    ∃ a b, swapPick i r s = { r with x := a, y := b } := by
  rw [swapPick]
  by_cases h : i = s.1.1
  · exact ⟨s.2.2.x, s.2.2.y, if_pos h⟩
  · exact ⟨s.1.2.x, s.1.2.y, if_neg h⟩

/-- `swapEntry` only ever touches the coordinates. -/
theorem swapEntry_fields (rows : List HRow) (ir : Nat × HRow) :
    ∃ a b, swapEntry rows ir = { ir.2 with x := a, y := b } := by
  rw [swapEntry]
  by_cases h1 : pyStartsWith ir.2.component "L-D" = true ∧
      (rows.enum.filter (fun jq => jq.2.component = ir.2.component)).length = 2
  · rw [if_pos h1]
    rcases hgrp : rows.enum.filter (fun jq => jq.2.component = ir.2.component) with
      _ | ⟨a, _ | ⟨b, _ | ⟨c, t⟩⟩⟩
    · exact ⟨ir.2.x, ir.2.y, by rw [hgrp]⟩
    · exact ⟨ir.2.x, ir.2.y, by rw [hgrp]⟩
    · rw [hgrp]
      exact swapPick_fields ir.1 ir.2 (sortGrp2 a b)
    · exact ⟨ir.2.x, ir.2.y, by rw [hgrp]⟩
  · rw [if_neg h1]
    exact ⟨ir.2.x, ir.2.y, rfl⟩

/-- `swapEntry` preserves the component name. -/
theorem swapEntry_component (rows : List HRow) (ir : Nat × HRow) :
    (swapEntry rows ir).component = ir.2.component := by
  rcases swapEntry_fields rows ir with ⟨a, b, h⟩
  rw [h]

/-- Position-wise description of `swapDiodeRows`. -/
theorem swapDiodeRows_getElem (rows : List HRow) (i : Nat) (r : HRow)
    (h : rows[i]? = some r) :
    (swapDiodeRows rows)[i]? = some (swapEntry rows (i, r)) := by
  rw [swapDiodeRows, List.getElem?_map, List.getElem?_enum, h]
  rfl

/-- Rows of `swap_diode_pins`' output keep every field but the coordinates
of the corresponding input row. -/
theorem swapDiodeRows_fields (rows : List HRow) (i : Nat) (r : HRow)
    (h : rows[i]? = some r) :
    ∃ r', (swapDiodeRows rows)[i]? = some r' ∧ r'.id = r.id ∧
      r'.component = r.component ∧ r'.pin_name = r.pin_name ∧ r'.z = r.z ∧
      r'.layer = r.layer ∧ r'.signal = r.signal ∧
      r'.connected_to = r.connected_to ∧ r'.connected_ids = r.connected_ids := by
  rcases swapEntry_fields rows (i, r) with ⟨a, b, he⟩
  exact ⟨swapEntry rows (i, r), swapDiodeRows_getElem rows i r h,
    by rw [he], by rw [he], by rw [he], by rw [he], by rw [he], by rw [he],
    by rw [he], by rw [he]⟩

/-- A row of a component that does not qualify (name without the `"L-D"`
prefix, or a row count other than two) is written out unchanged. -/
theorem swapEntry_skip (rows : List HRow) (ir : Nat × HRow)
    (h : ¬(pyStartsWith ir.2.component "L-D" = true ∧
        (rows.filter (fun q => q.component = ir.2.component)).length = 2)) :
    swapEntry rows ir = ir.2 := by
  rw [swapEntry, if_neg]
  intro hc
  apply h
  refine ⟨hc.1, ?_⟩
  have h2 := congrArg List.length
    (enumFrom_filter_map_snd (fun q : HRow => decide (q.component = ir.2.component)) 0 rows)
  rw [List.length_map] at h2
  rw [← h2]
  exact hc.2

/-- Claim C10: `swap_diode_pins` applies the same sort-by-pin-name-and-
exchange-coordinates rule the resolver already applied, so on the parser's
combined graph table it is an involution: for a qualifying `"L-D"`
component with exactly two pins the final rows carry the directly computed
pre-swap coordinates of their pins, every row keeps every field other than
the coordinates, and rows of non-qualifying components pass through
entirely unchanged. -/
theorem C10_swap_involution (shapes : Shapes) (signals : Signals)
    (comps : Components) (pins : List Pin) (n : String) (c : ComponentData)
    (shapeName : String) (shapePins : List ShapePin) (cx cy : ℝ)
    (hnd : (comps.map Prod.fst).Nodup)
    (hok : calculatePinPositions shapes signals comps = .ok pins)
    (hmem : (n, c) ∈ comps)
    (hdio : pyStartsWith n "L-D" = true)
    (hs : c.shape = some shapeName)
    (hlook : lookupShape shapes shapeName = some shapePins)
    (hcx : c.x = some cx) (hcy : c.y = some cy)
    (hlen : shapePins.length = 2) :
    (((swapDiodeRows (exportHoudini pins signals)).filter
        (fun r => r.component = n)).map (fun r => (r.pin_name, r.x, r.y)) =
      (sortPins2 (shapePins.map (computePin signals n c cx cy))).map
        (fun p => (p.pin_name, p.x, p.y))) ∧
    (∀ (i : Nat) (r : HRow), (exportHoudini pins signals)[i]? = some r →
      ∃ r', (swapDiodeRows (exportHoudini pins signals))[i]? = some r' ∧
        r'.id = r.id ∧ r'.component = r.component ∧ r'.pin_name = r.pin_name ∧
        r'.z = r.z ∧ r'.layer = r.layer ∧ r'.signal = r.signal ∧
        r'.connected_to = r.connected_to ∧ r'.connected_ids = r.connected_ids) ∧
    (∀ (i : Nat) (r : HRow), (exportHoudini pins signals)[i]? = some r →
      ¬(pyStartsWith r.component "L-D" = true ∧
        ((exportHoudini pins signals).filter
          (fun q => q.component = r.component)).length = 2) →
      (swapDiodeRows (exportHoudini pins signals))[i]? = some r) := by
  refine ⟨?_, ?_, ?_⟩
  · -- the qualifying component's rows
    have hCP2 : (shapePins.map (computePin signals n c cx cy)).length = 2 := by
      rw [List.length_map]; exact hlen
    have hcalc : calcComponentPins shapes signals n c =
        .ok (swapCoords (sortPins2 (shapePins.map (computePin signals n c cx cy)))) := by
      rw [calcComponentPins_ok hs hlook hcx hcy, if_pos ⟨hdio, hCP2⟩]
    rcases calculatePinPositions_filter hnd hok hmem with ⟨l, hl1, hl2⟩
    rw [hcalc] at hl1
    injection hl1 with hl1
    subst hl1
    obtain ⟨c0, c1, hCPeq⟩ := List.length_eq_two.mp hCP2
    rcases sortPins2_pair c0 c1 with ⟨P0, P1, hSPeq, hsorted, hor⟩
    have hSP : sortPins2 (shapePins.map (computePin signals n c cx cy)) = [P0, P1] := by
      rw [hCPeq, hSPeq]
    have hswap : swapCoords (sortPins2 (shapePins.map (computePin signals n c cx cy))) =
        [{ P0 with x := P1.x, y := P1.y }, { P1 with x := P0.x, y := P0.y }] := by
      rw [hSP]
      rfl
    have hcomp01 : P0.component = n ∧ P1.component = n := by
      have hc0 : c0.component = n ∧ c1.component = n := by
        have h0 : c0 ∈ shapePins.map (computePin signals n c cx cy) := by
          rw [hCPeq]; simp
        have h1 : c1 ∈ shapePins.map (computePin signals n c cx cy) := by
          rw [hCPeq]; simp
        rcases List.mem_map.mp h0 with ⟨s0, hs0, he0⟩
        rcases List.mem_map.mp h1 with ⟨s1, hs1, he1⟩
        exact ⟨by rw [← he0]; rfl, by rw [← he1]; rfl⟩
      rcases hor with h | h
      · simp only [List.cons.injEq, and_true] at h
        exact ⟨by rw [h.1]; exact hc0.1, by rw [h.2]; exact hc0.2⟩
      · simp only [List.cons.injEq, and_true] at h
        exact ⟨by rw [h.1]; exact hc0.2, by rw [h.2]; exact hc0.1⟩
    have hproj : (exportHoudini pins signals).map
        (fun r => (r.component, r.pin_name, r.x, r.y)) =
        pins.map (fun p => (p.component, p.pin_name, p.x, p.y)) := by
      rw [exportHoudini_map pins signals (fun r => (r.component, r.pin_name, r.x, r.y))
        (fun r a c => rfl)]
      exact houdiniBase_map pins _ _ (fun i p => rfl)
    have htr : ((exportHoudini pins signals).filter (fun r => r.component = n)).map
        (fun r => (r.component, r.pin_name, r.x, r.y)) =
        (pins.filter (fun p => p.component = n)).map
          (fun p => (p.component, p.pin_name, p.x, p.y)) :=
      filter_map_transport hproj (fun t => t.1 = n)
    rw [hl2, hswap] at htr
    have hflen : ((exportHoudini pins signals).filter (fun r => r.component = n)).length = 2 := by
      have h := congrArg List.length htr
      rw [List.length_map] at h
      exact h
    obtain ⟨A, B, hAB⟩ := List.length_eq_two.mp hflen
    rw [hAB] at htr
    simp only [List.map_cons, List.map_nil, List.cons.injEq, and_true, Prod.mk.injEq] at htr
    have hmapsnd : ((exportHoudini pins signals).enum.filter
        (fun jq => jq.2.component = n)).map Prod.snd =
        (exportHoudini pins signals).filter (fun r => r.component = n) :=
      enumFrom_filter_map_snd (fun r : HRow => decide (r.component = n)) 0 _
    have hg2 : ((exportHoudini pins signals).enum.filter
        (fun jq => jq.2.component = n)).length = 2 := by
      have h := congrArg List.length hmapsnd
      rw [List.length_map] at h
      rw [h, hAB]
      rfl
    obtain ⟨ja, jb, hgrp⟩ := List.length_eq_two.mp hg2
    have hsnd : ja.2 = A ∧ jb.2 = B := by
      have h := hmapsnd
      rw [hgrp, hAB] at h
      simp only [List.map_cons, List.map_nil, List.cons.injEq, and_true] at h
      exact h
    have hidx : ja.1 ≠ jb.1 := by
      have hsub : (((exportHoudini pins signals).enum.filter
          (fun jq => jq.2.component = n)).map Prod.fst).Sublist
          ((exportHoudini pins signals).enum.map Prod.fst) :=
        List.Sublist.map Prod.fst (List.filter_sublist _)
      rw [List.enum_map_fst] at hsub
      have hnd2 := List.Nodup.sublist hsub (List.nodup_range _)
      rw [hgrp] at hnd2
      simp only [List.map_cons, List.map_nil] at hnd2
      rw [List.nodup_cons] at hnd2
      exact fun he => hnd2.1 (List.mem_singleton.mpr he)
    have hAc : A.component = n := by rw [htr.1.1, hcomp01.1]
    have hBc : B.component = n := by rw [htr.2.1, hcomp01.2]
    have hgrpA : (exportHoudini pins signals).enum.filter
        (fun jq => jq.2.component = A.component) = [ja, jb] := by
      rw [show A.component = n from hAc]
      exact hgrp
    have hgrpB : (exportHoudini pins signals).enum.filter
        (fun jq => jq.2.component = B.component) = [ja, jb] := by
      rw [show B.component = n from hBc]
      exact hgrp
    have hsort : sortGrp2 ja jb = (ja, jb) := by
      rw [sortGrp2, hsnd.1, hsnd.2, htr.1.2.1, htr.2.2.1, hsorted]
      rfl
    have hswA : swapEntry (exportHoudini pins signals) ja =
        { A with x := P0.x, y := P0.y } := by
      rw [swapEntry, hsnd.1, hgrpA]
      rw [if_pos ⟨by rw [hAc]; exact hdio, rfl⟩]
      show swapPick ja.1 A (sortGrp2 ja jb) = { A with x := P0.x, y := P0.y }
      rw [hsort, swapPick, if_pos rfl]
      show { A with x := jb.2.x, y := jb.2.y } = { A with x := P0.x, y := P0.y }
      rw [hsnd.2, htr.2.2.2.1, htr.2.2.2.2]
    have hswB : swapEntry (exportHoudini pins signals) jb =
        { B with x := P1.x, y := P1.y } := by
      rw [swapEntry, hsnd.2, hgrpB]
      rw [if_pos ⟨by rw [hBc]; exact hdio, rfl⟩]
      show swapPick jb.1 B (sortGrp2 ja jb) = { B with x := P1.x, y := P1.y }
      rw [hsort, swapPick, if_neg (fun he => hidx (Eq.symm he))]
      show { B with x := ja.2.x, y := ja.2.y } = { B with x := P1.x, y := P1.y }
      rw [hsnd.1, htr.1.2.2.1, htr.1.2.2.2]
    have hfilswap : (swapDiodeRows (exportHoudini pins signals)).filter
        (fun r => r.component = n) =
        [{ A with x := P0.x, y := P0.y }, { B with x := P1.x, y := P1.y }] := by
      rw [swapDiodeRows, List.filter_map]
      have hpred : ((exportHoudini pins signals).enum.filter
          ((fun r : HRow => decide (r.component = n)) ∘
            swapEntry (exportHoudini pins signals))) = [ja, jb] := by
        rw [← hgrp]
        apply List.filter_congr
        intro jq hjq
        show decide ((swapEntry (exportHoudini pins signals) jq).component = n) =
          decide (jq.2.component = n)
        rw [swapEntry_component]
      rw [hpred, List.map_cons, List.map_cons, List.map_nil, hswA, hswB]
    rw [hfilswap, hSP]
    simp only [List.map_cons, List.map_nil]
    rw [htr.1.2.1, htr.2.2.1]
  · -- every field other than the coordinates survives at every position
    intro i r h
    exact swapDiodeRows_fields _ i r h
  · -- rows of non-qualifying components are unchanged
    intro i r h hnq
    have hsk := swapEntry_skip (exportHoudini pins signals) (i, r) hnq
    rw [swapDiodeRows_getElem _ i r h, hsk]

/-- Witness for C10 at a concrete diode: component `"L-D1"` with two pins;
after the resolver's swap, `swap_diode_pins` restores the sorted pins'
directly computed coordinates. -/
theorem C10_swap_involution_witness :
    ((swapDiodeRows (exportHoudini
          (swapCoords (sortPins2
            (([⟨"1", "SMD", 1, 0, "TOP", 0⟩, ⟨"2", "SMD", 0, 0, "TOP", 0⟩] :
                List ShapePin).map
              (computePin [] "L-D1"
                ⟨some "D", some 0, some 0, some 0, false, false, false, none⟩ 0 0))))
          [])).filter
        (fun r => r.component = "L-D1")).map (fun r => (r.pin_name, r.x, r.y)) =
      (sortPins2
          (([⟨"1", "SMD", 1, 0, "TOP", 0⟩, ⟨"2", "SMD", 0, 0, "TOP", 0⟩] :
              List ShapePin).map
            (computePin [] "L-D1"
              ⟨some "D", some 0, some 0, some 0, false, false, false, none⟩ 0 0))).map
        (fun p => (p.pin_name, p.x, p.y)) :=
  (C10_swap_involution
    [("D", [⟨"1", "SMD", 1, 0, "TOP", 0⟩, ⟨"2", "SMD", 0, 0, "TOP", 0⟩])] []
    [("L-D1", ⟨some "D", some 0, some 0, some 0, false, false, false, none⟩)]
    (swapCoords (sortPins2
      (([⟨"1", "SMD", 1, 0, "TOP", 0⟩, ⟨"2", "SMD", 0, 0, "TOP", 0⟩] :
          List ShapePin).map
        (computePin [] "L-D1"
          ⟨some "D", some 0, some 0, some 0, false, false, false, none⟩ 0 0))))
    "L-D1" ⟨some "D", some 0, some 0, some 0, false, false, false, none⟩
    "D" [⟨"1", "SMD", 1, 0, "TOP", 0⟩, ⟨"2", "SMD", 0, 0, "TOP", 0⟩] 0 0
    (by decide) rfl (List.mem_cons_self _ _) (by decide) rfl rfl rfl rfl rfl).1
